import Mathlib

/-!
# xk6-browser: timeout resolution, option parsing and video capture

A shallow embedding of `common/timeout.go`, `common/options.go` and
`common/videocapture.go`, followed by the theorems about them.

Conventions of the embedding

* Go's `int64` and `time.Duration` (an `int64` count of nanoseconds) are `Int`;
  the arithmetic that can overflow, the product in `navigationTimeout` and the
  sum in `Time.UnixMilli`, is wrapped with `wrapInt64`.
* A `*TimeoutSettings` is an address into a heap of nodes, so that several
  children share (and observe the mutation of) one parent.  A nil pointer is
  `none`.
* Recursive methods take a fuel argument; `none` as a result means that the
  fuel ran out (or that an address outside the heap was dereferenced, which a
  Go program cannot do).
* A Go function with results `(T, error)` returns a pair whose second
  component is `none` for a nil error.
* A function that can panic returns an `Except`: `.error` is the panic with
  its value, `.ok` the return.
* The functions of the Go standard library that the code calls are parameters
  of the embedded functions; where a statement needs their values (the
  duration that "30s" denotes, the path that `filepath.Join` builds) the file
  has a model of the library function, written from the library's source.
* The locator engine, of which the sources at hand have only the tests, is
  modelled from section 4.5 of the specification.
-/

namespace Xk6Browser

/-! ## Machine integers and the parts of package `time` that the code uses -/

/-- The value of an `int64` after an arithmetic operation whose exact result
is `x`: two's complement wrap-around. -/
def wrapInt64 (x : Int) : Int :=
  (x + 2 ^ 63) % 2 ^ 64 - 2 ^ 63

/-- The `int64` range. -/
def isInt64 (x : Int) : Prop :=
  -(2 ^ 63) ≤ x ∧ x < 2 ^ 63

instance (x : Int) : Decidable (isInt64 x) := by
  unfold isInt64
  infer_instance

namespace time

/-- Go's `time.Duration`: an `int64` nanosecond count. -/
abbrev Duration := Int

/-- The constant `time.Millisecond`. -/
def Millisecond : Duration := 1000000

/-- The constant `time.Second`. -/
def Second : Duration := 1000 * Millisecond

/-- The constant `time.Minute`. -/
def Minute : Duration := 60 * Second

/-- The constant `time.Hour`. -/
def Hour : Duration := 60 * Minute

/-- The method `Duration.Milliseconds`: `int64(d) / 1e6`, Go's integer
division truncating toward zero. -/
def Duration.Milliseconds (d : Duration) : Int :=
  Int.tdiv d 1000000

end time

/-! ## Go errors and the parts of packages `fmt`, `strconv`, `reflect` that the code uses -/

/-- A Go `error` value: `leaf msg` is an error without a cause (`errors.New`,
`fmt.Errorf` without `%w`); `wrap msg inner` is what `fmt.Errorf` returns for a
format with `%w`, `msg` being the whole formatted message. -/
inductive GoError where
  | leaf (msg : String)
  | wrap (msg : String) (inner : GoError)
deriving DecidableEq, Repr

/-- The method `Error()`. -/
def GoError.Error : GoError → String
  | .leaf msg => msg
  | .wrap msg _ => msg

/-- The method `Unwrap()`, as `errors.Unwrap` calls it. -/
def GoError.Unwrap : GoError → Option GoError
  | .leaf _ => none
  | .wrap _ inner => some inner

/-- The function `errors.Is(err, target)`: `target` is `err` or is reached from it by
`Unwrap`. -/
def GoError.Is : GoError → GoError → Bool
  | .leaf msg, target => decide (GoError.leaf msg = target)
  | .wrap msg inner, target =>
    decide (GoError.wrap msg inner = target) || GoError.Is inner target

namespace reflect

/-- The kinds of `reflect.Kind` that an exported script value can have. -/
inductive Kind where
  | Invalid | Bool | Int64 | Float64 | String | Map | Slice | Struct | Func | Interface | Ptr
deriving DecidableEq, Repr

end reflect

namespace goja

/-- A `goja.Value`, as far as the option parsers observe it: the
`reflect.Type` that `val.ExportType()` returns, given by its `Kind()`, and the
string form `val.String()`.  The exported type is the nil `reflect.Type`,
here `none`, for the values `undefined` and `null`. -/
structure Value where
  ExportType : Option reflect.Kind
  String : String
deriving DecidableEq, Repr

/-- The value `goja.Undefined()`. -/
def Undefined : Value :=
  { ExportType := none, String := "undefined" }

/-- The value `goja.Null()`. -/
def Null : Value :=
  { ExportType := none, String := "null" }

end goja

/-- The value of the run-time panic that a method call on a nil interface
raises. -/
def nilDereference : String :=
  "runtime error: invalid memory address or nil pointer dereference"

/-! ## `common/options.go` -/

/-- The function `parseBoolOpt(key, val)`; `ParseBool` is `strconv.ParseBool`. -/
def parseBoolOpt (ParseBool : String → Bool × Option GoError) (key : String)
    (val : goja.Value) : Bool × Option GoError :=
  match ParseBool val.String with
  | (_, some err) => (false, some (.wrap (key ++ " should be a boolean: " ++ err.Error) err))
  | (b, none) => (b, none)

/-- The function `parseStrOpt(key, val)`.  The call `val.ExportType().Kind()`
panics when `val.ExportType()` is nil: `.error` is a panic with its value,
`.ok` a return. -/
def parseStrOpt (key : String) (val : goja.Value) : Except String (String × Option GoError) :=
  match val.ExportType with
  | none => .error nilDereference
  | some kind =>
    if kind ≠ reflect.Kind.String then
      .ok ("", some (.leaf (key ++ " should be a string")))
    else
      .ok (val.String, none)

/-- The function `parseTimeOpt(key, val)`; `ParseDuration` is `time.ParseDuration`. -/
def parseTimeOpt (ParseDuration : String → time.Duration × Option GoError) (key : String)
    (val : goja.Value) : time.Duration × Option GoError :=
  match ParseDuration val.String with
  | (_, some err) =>
    (0, some (.wrap (key ++ " should be a time duration value: " ++ err.Error) err))
  | (t, none) => (t, none)

/-! ## `time.ParseDuration` -/

namespace time

/-- The byte is a decimal digit: `'0' <= c && c <= '9'`. -/
def isDigit (c : Char) : Bool :=
  decide ('0' ≤ c) && decide (c ≤ '9')

/-- The function `leadingInt(s)`: the leading decimal digits of `s` as a number, and the
rest of `s`; `none` is `errLeadingInt`, a number above `1<<63`.  The second
argument is the number read so far. -/
def leadingInt : List Char → Nat → Option (Nat × List Char)
  | [], x => some (x, [])
  | c :: s, x =>
    if !isDigit c then some (x, c :: s)
    else if x > 2 ^ 63 / 10 then none
    else if x * 10 + (c.toNat - '0'.toNat) > 2 ^ 63 then none
    else leadingInt s (x * 10 + (c.toNat - '0'.toNat))

/-- The function `leadingFraction(s)`: the leading decimal digits of `s` as a number `x`
with its `scale` (a power of ten), and the rest of `s`; digits after an
overflow are skipped. -/
def leadingFraction : List Char → Nat → Nat → Bool → Nat × Nat × List Char
  | [], x, scale, _ => (x, scale, [])
  | c :: s, x, scale, overflow =>
    if !isDigit c then (x, scale, c :: s)
    else if overflow then leadingFraction s x scale true
    else if x > (2 ^ 63 - 1) / 10 then leadingFraction s x scale true
    else if x * 10 + (c.toNat - '0'.toNat) > 2 ^ 63 then leadingFraction s x scale true
    else leadingFraction s (x * 10 + (c.toNat - '0'.toNat)) (scale * 10) false

/-- The table `unitMap`. -/
def unitMap (u : List Char) : Option Nat :=
  if u = "ns".data then some 1
  else if u = "us".data then some 1000
  else if u = "µs".data then some 1000
  else if u = "μs".data then some 1000
  else if u = "ms".data then some 1000000
  else if u = "s".data then some 1000000000
  else if u = "m".data then some 60000000000
  else if u = "h".data then some 3600000000000
  else none

/-- The errors of `ParseDuration`; `quote` is the unexported function of that
name in package `time`. -/
def errInvalidDuration (quote : String → String) (orig : String) : GoError :=
  .leaf ("time: invalid duration " ++ quote orig)

def errMissingUnit (quote : String → String) (orig : String) : GoError :=
  .leaf ("time: missing unit in duration " ++ quote orig)

def errUnknownUnit (quote : String → String) (u orig : String) : GoError :=
  .leaf ("time: unknown unit " ++ quote u ++ " in duration " ++ quote orig)

/-- The loop `for s != ""` of `ParseDuration`, with the `uint64` sum `d` so
far.  `frac f unit scale` is the `uint64` that the floating-point expression
`uint64(float64(f) * (float64(unit) / scale))` evaluates to. -/
def parseDurationLoop (quote : String → String) (frac : Nat → Nat → Nat → Nat)
    (orig : String) : Nat → List Char → Nat → Except GoError Nat
  | 0, _, d => .ok d
  | _ + 1, [], d => .ok d
  | fuel + 1, c :: s, d =>
    if !(c = '.' || isDigit c) then .error (errInvalidDuration quote orig)
    else
      match leadingInt (c :: s) 0 with
      | none => .error (errInvalidDuration quote orig)
      | some (v, s1) =>
        let pre := decide ((c :: s).length ≠ s1.length)
        let fr : Nat × Nat × List Char × Bool :=
          match s1 with
          | '.' :: s2 =>
            let r := leadingFraction s2 0 1 false
            (r.1, r.2.1, r.2.2, decide (s2.length ≠ r.2.2.length))
          | _ => (0, 1, s1, false)
        let f := fr.1
        let scale := fr.2.1
        let s3 := fr.2.2.1
        let post := fr.2.2.2
        if !pre && !post then .error (errInvalidDuration quote orig)
        else
          let u := s3.takeWhile fun b => !(b = '.' || isDigit b)
          let s4 := s3.dropWhile fun b => !(b = '.' || isDigit b)
          if u = [] then .error (errMissingUnit quote orig)
          else
            match unitMap u with
            | none => .error (errUnknownUnit quote (String.mk u) orig)
            | some unit =>
              if v > 2 ^ 63 / unit then .error (errInvalidDuration quote orig)
              else
                let v1 := v * unit
                let v2 := if f > 0 then (v1 + frac f unit scale) % 2 ^ 64 else v1
                if f > 0 && decide (v2 > 2 ^ 63) then .error (errInvalidDuration quote orig)
                else
                  let d1 := (d + v2) % 2 ^ 64
                  if d1 > 2 ^ 63 then .error (errInvalidDuration quote orig)
                  else parseDurationLoop quote frac orig fuel s4 d1

/-- The function `time.ParseDuration(s)` of the Go standard library (Go 1.18). -/
def ParseDuration (quote : String → String) (frac : Nat → Nat → Nat → Nat) (orig : String) :
    Duration × Option GoError :=
  let neg := decide (orig.data.head? = some '-')
  let s := match orig.data with
    | '-' :: r => r
    | '+' :: r => r
    | r => r
  if s = ['0'] then (0, none)
  else if s = [] then (0, some (errInvalidDuration quote orig))
  else
    match parseDurationLoop quote frac orig (s.length + 1) s 0 with
    | .error e => (0, some e)
    | .ok d =>
      if neg then (wrapInt64 (-(d : Int)), none)
      else if d > 2 ^ 63 - 1 then (0, some (errInvalidDuration quote orig))
      else ((d : Int), none)

end time

/-! ## `common/timeout.go` -/

/-- The struct `TimeoutSettings`.  A nil pointer field is `none`; `parent` is
the address of the parent node in the heap. -/
structure TimeoutSettings where
  parent : Option Nat
  defaultTimeout : Option Int
  defaultNavigationTimeout : Option time.Duration
deriving DecidableEq, Repr

/-- The memory holding the `TimeoutSettings` nodes: the node at address `a` is
the `a`-th element, addresses being handed out in allocation order. -/
abbrev Heap := List TimeoutSettings

/-- The constructor `NewTimeoutSettings(parent)`: allocates a node with the given parent and
both settings nil; returns the new heap and the address of the node. -/
def NewTimeoutSettings (h : Heap) (parent : Option Nat) : Heap × Nat :=
  (h ++ [{ parent := parent, defaultTimeout := none, defaultNavigationTimeout := none }],
    h.length)

/-- The method `t.setDefaultTimeout(timeout)`: `t.defaultTimeout = &timeout`. -/
def setDefaultTimeout (h : Heap) (t : Nat) (timeout : Int) : Heap :=
  match h[t]? with
  | some n => h.set t { n with defaultTimeout := some timeout }
  | none => h

/-- The method `t.setDefaultNavigationTimeout(timeout)`:
`t.defaultNavigationTimeout = &timeout`. -/
def setDefaultNavigationTimeout (h : Heap) (t : Nat) (timeout : time.Duration) : Heap :=
  match h[t]? with
  | some n => h.set t { n with defaultNavigationTimeout := some timeout }
  | none => h

/-- The method `t.navigationTimeout()`.  `DefaultTimeout` is the package constant of that
name, which is declared in another file of package `common`. -/
def navigationTimeout (DefaultTimeout : time.Duration) (h : Heap) :
    Nat → Nat → Option time.Duration
  | 0, _ => none
  | fuel + 1, t =>
    match h[t]? with
    | none => none
    | some n =>
      match n.defaultNavigationTimeout with
      | some d => some d
      | none =>
        match n.defaultTimeout with
        | some m => some (wrapInt64 (m * time.Duration.Milliseconds time.Hour))
        | none =>
          match n.parent with
          | some p => navigationTimeout DefaultTimeout h fuel p
          | none => some DefaultTimeout

/-- The method `t.timeout()`. -/
def timeout (DefaultTimeout : time.Duration) (h : Heap) : Nat → Nat → Option Int
  | 0, _ => none
  | fuel + 1, t =>
    match h[t]? with
    | none => none
    | some n =>
      match n.defaultTimeout with
      | some m => some m
      | none =>
        match n.parent with
        | some p => timeout DefaultTimeout h fuel p
        | none => some (time.Duration.Milliseconds DefaultTimeout)

/-! ### Heaps that the constructor can build -/

/-- The parent link of the node at address `i` is nil or an address below `i`:
`NewTimeoutSettings` is the only place that writes `parent`, and the parent it
is given exists before the node does. -/
def parentBefore (i : Nat) (n : TimeoutSettings) : Bool :=
  match n.parent with
  | none => true
  | some p => decide (p < i)

/-- Every node of the heap has its parent allocated before it. -/
def Heap.wellFormed (h : Heap) : Bool :=
  (List.range h.length).all fun i =>
    match h[i]? with
    | some n => parentBefore i n
    | none => true

/-- The addresses visited by walking the parent links from `t`, `t` itself
first. -/
def chain (h : Heap) : Nat → Nat → List Nat
  | 0, _ => []
  | fuel + 1, t =>
    match h[t]? with
    | none => []
    | some n =>
      match n.parent with
      | some p => t :: chain h fuel p
      | none => [t]

/-- The nodes on the path `t`, `t.parent`, `t.parent.parent`, ... -/
def path (h : Heap) (fuel t : Nat) : List TimeoutSettings :=
  (chain h fuel t).filterMap fun a => h[a]?

/-- The nearest `defaultTimeout` that is set on a path of nodes, as the
specification words the result of `timeout()`. -/
def nearestDefaultTimeout (DefaultTimeout : time.Duration) (nodes : List TimeoutSettings) : Int :=
  (nodes.findSome? fun n => n.defaultTimeout).getD (time.Duration.Milliseconds DefaultTimeout)

/-! ## `fmt.Sprintf("%d", ...)` and `filepath.Join` -/

namespace fmt

/-- The decimal digit `digits[d]` of `fmtInteger`, for `d` below ten. -/
def digit (d : Nat) : Char :=
  Char.ofNat ('0'.toNat + d)

/-- The base-ten loop of `fmtInteger`, which writes the digits of `u` right to
left in front of `buf`: `for u >= 10 { ...; buf[i] = '0' + u - next*10; u = next }`
and then `buf[i] = digits[u]`. -/
def fmtDigits : Nat → Nat → List Char → List Char
  | 0, u, buf => digit u :: buf
  | fuel + 1, u, buf =>
    if u ≥ 10 then fmtDigits fuel (u / 10) (digit (u - u / 10 * 10) :: buf)
    else digit u :: buf

/-- The verb `%d` applied to an `int64`: `fmtInteger` with base ten, a minus
sign in front of the digits of a negative number. -/
def fmtInteger (x : Int) : List Char :=
  if x < 0 then '-' :: fmtDigits x.natAbs x.natAbs [] else fmtDigits x.natAbs x.natAbs []

end fmt

namespace filepath

/-- The function `os.IsPathSeparator(c)` on Unix. -/
def IsPathSeparator (c : Char) : Bool :=
  decide (c = '/')

/-- The backtracking of `Clean` at a `..` element:
`out.w--; for out.w > dotdot && !os.IsPathSeparator(out.index(out.w)) { out.w-- }`.
The buffer is given last byte first. -/
def backtrack (dotdot : Nat) : List Char → List Char
  | [] => []
  | c :: out => if out.length > dotdot && !IsPathSeparator c then backtrack dotdot out else out

/-- The loop `for r < n` of `Clean`: `rest` is `path[r:]`, `out` the bytes
written so far, last byte first. -/
def cleanLoop (rooted : Bool) : Nat → List Char → List Char → Nat → List Char
  | 0, _, out, _ => out
  | _ + 1, [], out, _ => out
  | fuel + 1, c :: rest, out, dotdot =>
    if IsPathSeparator c then
      cleanLoop rooted fuel rest out dotdot
    else if c = '.' && (rest.isEmpty || rest.head?.any IsPathSeparator) then
      cleanLoop rooted fuel rest out dotdot
    else if c = '.' && rest.head? = some '.' &&
        (rest.tail.isEmpty || rest.tail.head?.any IsPathSeparator) then
      if out.length > dotdot then
        cleanLoop rooted fuel rest.tail (backtrack dotdot out) dotdot
      else if !rooted then
        cleanLoop rooted fuel rest.tail ('.' :: '.' :: (if out.length > 0 then '/' :: out else out))
          (if out.length > 0 then out.length + 3 else out.length + 2)
      else
        cleanLoop rooted fuel rest.tail out dotdot
    else
      cleanLoop rooted fuel ((c :: rest).dropWhile fun b => !IsPathSeparator b)
        (((c :: rest).takeWhile fun b => !IsPathSeparator b).reverse ++
          (if rooted && out.length ≠ 1 || !rooted && out.length ≠ 0 then '/' :: out else out))
        dotdot

/-- The function `filepath.Clean(path)` on Unix. -/
def Clean (path : String) : String :=
  if path = "" then "."
  else
    let rooted := path.data.head?.any IsPathSeparator
    let out :=
      if rooted then cleanLoop true (path.data.length + 1) path.data.tail ['/'] 1
      else cleanLoop false (path.data.length + 1) path.data [] 0
    if out.length = 0 then "." else String.mk out.reverse

/-- The function `filepath.Join(elem...)` on Unix: the elements from the first non-empty
one on, joined with the separator and cleaned. -/
def Join (elem : List String) : String :=
  match elem.dropWhile fun e => e = "" with
  | [] => ""
  | es => Clean ("/".intercalate es)

end filepath

namespace fmt

/-- The call `fmt.Sprintf("frame%d.jpeg", x)` for an `int64` `x`. -/
def Sprintf_frame (x : Int) : String :=
  String.mk ("frame".data ++ fmtInteger x ++ ".jpeg".data)

end fmt

/-! ## `common/videocapture.go` -/

namespace time

/-- A `time.Time`, by what `UnixMilli` reads of it: the seconds since the Unix
epoch (`t.unixSec()`) and the nanoseconds within the second (`t.nsec()`, below
`1e9`). -/
structure Time where
  unixSec : Int
  nsec : Nat
deriving DecidableEq, Repr

/-- The method `UnixMilli`: `t.unixSec()*1e3 + int64(t.nsec())/1e6` in `int64`
arithmetic. -/
def Time.UnixMilli (t : Time) : Int :=
  wrapInt64 (wrapInt64 (t.unixSec * 1000) + (t.nsec : Int) / 1000000)

end time

/-- The type `VideoFormat`, a defined string type. -/
structure VideoFormat where
  val : String
deriving DecidableEq, Repr

/-- The constant `VideoFormatJPEG`. -/
def VideoFormatJPEG : VideoFormat := ⟨"jpeg"⟩

/-- The method `String()` of `VideoFormat`, whose body is `return f.String()`:
a call of the method itself.  `none` is a run that has not returned within the
given number of nested calls. -/
def VideoFormat.String (f : VideoFormat) : Nat → Option String
  | 0 => none
  | fuel + 1 => VideoFormat.String f fuel

/-- The struct `VideoFrame`; `Rd` is the type of the `io.Reader` values. -/
structure VideoFrame (Rd : Type) where
  Content : Rd
  Timestamp : time.Time

/-- The interface `VideoCapturePersister`: an implementation has a state of
type `σ`, which `Persist` reads and may change, and returns an error or nil.
`Ctx` is the type of the `context.Context` values. -/
structure VideoCapturePersister (Ctx Rd σ : Type) where
  Persist : Ctx → String → Rd → σ → Option GoError × σ

/-- The arguments of one call of `Persist`. -/
structure PersistCall (Ctx Rd : Type) where
  ctx : Ctx
  path : String
  data : Rd

/-- What a run of the program acts on: the state of the persister, and the
record of the calls of `Persist` made so far, oldest first. -/
structure World (Ctx Rd σ : Type) where
  state : σ
  calls : List (PersistCall Ctx Rd)

/-- A call `p.Persist(ctx, path, data)` through the interface. -/
def VideoCapturePersister.call {Ctx Rd σ : Type} (p : VideoCapturePersister Ctx Rd σ)
    (ctx : Ctx) (path : String) (data : Rd) (w : World Ctx Rd σ) :
    Option GoError × World Ctx Rd σ :=
  ((p.Persist ctx path data w.state).1,
    { state := (p.Persist ctx path data w.state).2,
      calls := w.calls ++ [{ ctx := ctx, path := path, data := data }] })

/-- The struct `videocapture`. -/
structure videocapture (Ctx Rd σ : Type) where
  ctx : Ctx
  persister : VideoCapturePersister Ctx Rd σ
  path : String

/-- The constructor `newVideoCapture(ctx, path, persister)`. -/
def newVideoCapture {Ctx Rd σ : Type} (ctx : Ctx) (path : String)
    (persister : VideoCapturePersister Ctx Rd σ) : videocapture Ctx Rd σ :=
  { ctx := ctx, path := path, persister := persister }

/-- The method `v.handleFrame(ctx, frame)`; `Join` is `filepath.Join`. -/
def videocapture.handleFrame {Ctx Rd σ : Type} (Join : List String → String)
    (v : videocapture Ctx Rd σ) (ctx : Ctx) (frame : VideoFrame Rd) (w : World Ctx Rd σ) :
    Option GoError × World Ctx Rd σ :=
  let file := Join [v.path, fmt.Sprintf_frame frame.Timestamp.UnixMilli]
  match v.persister.call ctx file frame.Content w with
  | (some err, w1) => (some (.wrap ("creating frame file: " ++ err.Error) err), w1)
  | (none, w1) => (none, w1)

/-- The method `v.Close()`. -/
def videocapture.Close {Ctx Rd σ : Type} (_v : videocapture Ctx Rd σ) : Option GoError :=
  none


/-! ## The locator engine (specification, section 4.5) -/

namespace Locator

end Locator

/-! ## Concrete values for the examples -/

namespace strconv

/-- The function `strconv.ParseBool(str)` of the Go standard library; `quote` is
`strconv.Quote`. -/
def ParseBool (quote : String → String) (str : String) : Bool × Option GoError :=
  if str ∈ ["1", "t", "T", "true", "TRUE", "True"] then (true, none)
  else if str ∈ ["0", "f", "F", "false", "FALSE", "False"] then (false, none)
  else
    (false, some (.wrap ("strconv.ParseBool: parsing " ++ quote str ++ ": invalid syntax")
      (.leaf "invalid syntax")))

end strconv

/-- Quoting of a string that needs no escape. -/
def plainQuote (s : String) : String :=
  "\"" ++ s ++ "\""

/-- A persister that accepts a frame when fewer than two are stored and
refuses it otherwise; its state is the number of stored frames. -/
def boundedPersister : VideoCapturePersister Nat String Nat where
  Persist := fun _ _ _ stored =>
    if stored < 2 then (none, stored + 1) else (some (.leaf "disk full"), stored)

/-- A video capture that writes below `/tmp/video` through `boundedPersister`. -/
def exampleCapture : videocapture Nat String Nat :=
  newVideoCapture 0 "/tmp/video" boundedPersister

/-- A frame captured 1,700,000,000.123456789 s after the Unix epoch. -/
def exampleFrame : VideoFrame String :=
  { Content := "jpeg bytes", Timestamp := { unixSec := 1700000000, nsec := 123456789 } }

/-! ## Auxiliary definitions of the statements -/

/-- The part of a node that `timeout()` reads. -/
def timeoutView (n : TimeoutSettings) : Option Nat × Option Int :=
  (n.parent, n.defaultTimeout)

/-- A heap of four nodes, each the child of the one before: the root sets only
a navigation timeout, node 2 only a default timeout. -/
def exampleHeap : Heap :=
  [ { parent := none, defaultTimeout := none, defaultNavigationTimeout := some 5000000000 },
    { parent := some 0, defaultTimeout := none, defaultNavigationTimeout := none },
    { parent := some 1, defaultTimeout := some 7, defaultNavigationTimeout := none },
    { parent := some 2, defaultTimeout := none, defaultNavigationTimeout := none } ]

/-- A heap with two branches under one root: nodes 1 and 2 are children of the
root, node 3 is a child of node 1 with a default timeout of its own. -/
def exampleTree : Heap :=
  [ { parent := none, defaultTimeout := none, defaultNavigationTimeout := none },
    { parent := some 0, defaultTimeout := none, defaultNavigationTimeout := none },
    { parent := some 0, defaultTimeout := none, defaultNavigationTimeout := none },
    { parent := some 1, defaultTimeout := some 250, defaultNavigationTimeout := none } ]

/-- The number that a string of decimal digits denotes. -/
def digitsValue (s : List Char) : Nat :=
  s.foldl (fun a c => 10 * a + (c.toNat - '0'.toNat)) 0

/-- A path element that `Clean` copies as it is: not empty, no separator in
it, and not starting with a dot. -/
def plainElement (name : List Char) : Prop :=
  (∀ c ∈ name, filepath.IsPathSeparator c = false) ∧ ∃ c r, name = c :: r ∧ c ≠ '.'

/-- The path that `handleFrame` hands to the persister, from the directory of
the capture and the frame's `UnixMilli()`. -/
def artifactName (Join : List String → String) (dir : String) (unixMilli : Int) : String :=
  Join [dir, fmt.Sprintf_frame unixMilli]

/-! # Theorems -/

/-! ### Timeout resolution -/

theorem time_Hour_Milliseconds : time.Duration.Milliseconds time.Hour = 3600000 := by decide

theorem wellFormed_parent_lt {h : Heap} (hwf : h.wellFormed = true) {i : Nat}
    {n : TimeoutSettings} (hi : h[i]? = some n) {p : Nat} (hp : n.parent = some p) : p < i := by
  have hlt : i < h.length := by
    rcases List.getElem?_eq_some.1 hi with ⟨hl, _⟩
    exact hl
  have hall := List.all_eq_true.1 hwf i (List.mem_range.2 hlt)
  simpa [hi, parentBefore, hp] using hall

theorem lookup_lt {h : Heap} {i : Nat} {n : TimeoutSettings} (hi : h[i]? = some n) :
    i < h.length := by
  rcases List.getElem?_eq_some.1 hi with ⟨hl, _⟩
  exact hl

theorem navigationTimeout_fuel (D : time.Duration) {h : Heap} (hwf : h.wellFormed = true) :
    ∀ (t f g : Nat), t < f → t < g →
      navigationTimeout D h f t = navigationTimeout D h g t := by
  intro t
  induction t using Nat.strong_induction_on with
  | _ t ih =>
    intro f g hf hg
    obtain ⟨f, rfl⟩ : ∃ k, f = k + 1 := ⟨f - 1, by omega⟩
    obtain ⟨g, rfl⟩ : ∃ k, g = k + 1 := ⟨g - 1, by omega⟩
    simp only [navigationTimeout]
    cases hn : h[t]? with
    | none => rfl
    | some n =>
      cases hp : n.parent with
      | none => simp only [hp]
      | some p =>
        have hpt : p < t := wellFormed_parent_lt hwf hn hp
        simp only [hp]
        rw [ih p hpt f g (by omega) (by omega)]

theorem timeout_fuel (D : time.Duration) {h : Heap} (hwf : h.wellFormed = true) :
    ∀ (t f g : Nat), t < f → t < g → timeout D h f t = timeout D h g t := by
  intro t
  induction t using Nat.strong_induction_on with
  | _ t ih =>
    intro f g hf hg
    obtain ⟨f, rfl⟩ : ∃ k, f = k + 1 := ⟨f - 1, by omega⟩
    obtain ⟨g, rfl⟩ : ∃ k, g = k + 1 := ⟨g - 1, by omega⟩
    simp only [timeout]
    cases hn : h[t]? with
    | none => rfl
    | some n =>
      cases hp : n.parent with
      | none => simp only [hp]
      | some p =>
        have hpt : p < t := wellFormed_parent_lt hwf hn hp
        simp only [hp]
        rw [ih p hpt f g (by omega) (by omega)]

theorem chain_fuel {h : Heap} (hwf : h.wellFormed = true) :
    ∀ (t f g : Nat), t < f → t < g → chain h f t = chain h g t := by
  intro t
  induction t using Nat.strong_induction_on with
  | _ t ih =>
    intro f g hf hg
    obtain ⟨f, rfl⟩ : ∃ k, f = k + 1 := ⟨f - 1, by omega⟩
    obtain ⟨g, rfl⟩ : ∃ k, g = k + 1 := ⟨g - 1, by omega⟩
    simp only [chain]
    cases hn : h[t]? with
    | none => rfl
    | some n =>
      cases hp : n.parent with
      | none => simp only [hp]
      | some p =>
        have hpt : p < t := wellFormed_parent_lt hwf hn hp
        simp only [hp]
        rw [ih p hpt f g (by omega) (by omega)]

theorem navigationTimeout_returns (D : time.Duration) {h : Heap} (hwf : h.wellFormed = true) :
    ∀ (t : Nat), t < h.length → ∃ v, navigationTimeout D h (t + 1) t = some v := by
  intro t
  induction t using Nat.strong_induction_on with
  | _ t ih =>
    intro ht
    simp only [navigationTimeout]
    have hn : h[t]? = some h[t] := List.getElem?_eq_getElem ht
    rw [hn]
    simp only
    cases hd : (h[t]).defaultNavigationTimeout with
    | some d => exact ⟨d, rfl⟩
    | none =>
      cases hm : (h[t]).defaultTimeout with
      | some m => exact ⟨_, rfl⟩
      | none =>
        cases hp : (h[t]).parent with
        | none => exact ⟨D, rfl⟩
        | some p =>
          have hpt : p < t := wellFormed_parent_lt hwf hn hp
          obtain ⟨v, hv⟩ := ih p hpt (by omega)
          refine ⟨v, ?_⟩
          simp only
          rw [navigationTimeout_fuel D hwf p t (p + 1) hpt (by omega)]
          exact hv


theorem timeout_returns (D : time.Duration) {h : Heap} (hwf : h.wellFormed = true) :
    ∀ (t : Nat), t < h.length →
      timeout D h (t + 1) t = some (nearestDefaultTimeout D (path h (t + 1) t)) := by
  intro t
  induction t using Nat.strong_induction_on with
  | _ t ih =>
    intro ht
    have hn : h[t]? = some h[t] := List.getElem?_eq_getElem ht
    simp only [timeout, path, chain, hn]
    cases hp : (h[t]).parent with
    | none =>
      cases hm : (h[t]).defaultTimeout with
      | some m => simp [nearestDefaultTimeout, hn, hm]
      | none => simp [nearestDefaultTimeout, hn, hm]
    | some p =>
      have hpt : p < t := wellFormed_parent_lt hwf hn hp
      have hrec := ih p hpt (by omega)
      rw [timeout_fuel D hwf p (p + 1) t (by omega) hpt] at hrec
      rw [path, chain_fuel hwf p (p + 1) t (by omega) hpt] at hrec
      cases hm : (h[t]).defaultTimeout with
      | some m => simp [nearestDefaultTimeout, hn, hm]
      | none =>
        simp only [hrec]
        simp [nearestDefaultTimeout, hn, hm]

theorem timeout_congr (D : time.Duration) {h g : Heap}
    (hv : h.map timeoutView = g.map timeoutView) :
    ∀ (fuel t : Nat), timeout D h fuel t = timeout D g fuel t := by
  have hlook : ∀ t : Nat, (h[t]?).map timeoutView = (g[t]?).map timeoutView := by
    intro t
    rw [← List.getElem?_map, ← List.getElem?_map, hv]
  intro fuel
  induction fuel with
  | zero => intro t; rfl
  | succ fuel ih =>
    intro t
    simp only [timeout]
    have ht := hlook t
    cases hh : h[t]? with
    | none =>
      cases hg : g[t]? with
      | none => rfl
      | some m => simp [hh, hg] at ht
    | some n =>
      cases hg : g[t]? with
      | none => simp [hh, hg] at ht
      | some m =>
        simp only [hh, hg, Option.map_some', Option.some.injEq, timeoutView, Prod.mk.injEq] at ht
        obtain ⟨h1, h2⟩ := ht
        simp only [h1, h2, ih]


theorem chain_le {h : Heap} (hwf : h.wellFormed = true) :
    ∀ (fuel x a : Nat), a ∈ chain h fuel x → a ≤ x := by
  intro fuel
  induction fuel with
  | zero => intro x a ha; simp [chain] at ha
  | succ fuel ih =>
    intro x a ha
    simp only [chain] at ha
    cases hx : h[x]? with
    | none => simp [hx] at ha
    | some nx =>
      cases hp : nx.parent with
      | none =>
        simp only [hx, hp, List.mem_singleton] at ha
        omega
      | some p =>
        simp only [hx, hp, List.mem_cons] at ha
        have hpx : p < x := wellFormed_parent_lt hwf hx hp
        rcases ha with ha | ha
        · omega
        · have := ih p a ha
          omega

theorem self_mem_chain {h : Heap} {x : Nat} (hx : (h[x]?).isSome = true) (fuel : Nat) :
    x ∈ chain h (fuel + 1) x := by
  simp only [chain]
  cases hn : h[x]? with
  | none => simp [hn] at hx
  | some n =>
    cases hp : n.parent with
    | none => simp [hp]
    | some p => simp [hp]

theorem navigationTimeout_frame (D : time.Duration) {h g : Heap} {n : Nat}
    (hn : (h[n]?).isSome = true) (hne : ∀ x : Nat, x ≠ n → g[x]? = h[x]?) :
    ∀ (fuel x : Nat), n ∉ chain h fuel x →
      navigationTimeout D g fuel x = navigationTimeout D h fuel x := by
  intro fuel
  induction fuel with
  | zero => intro x _; rfl
  | succ fuel ih =>
    intro x hx
    have hxn : x ≠ n := by
      intro he
      subst he
      exact hx (self_mem_chain hn fuel)
    simp only [navigationTimeout, hne x hxn]
    cases hl : h[x]? with
    | none => rfl
    | some nx =>
      cases hp : nx.parent with
      | none => simp only [hp]
      | some p =>
        simp only [chain, hl, hp, List.mem_cons, not_or] at hx
        simp only [hp, ih p hx.2]

theorem timeout_frame (D : time.Duration) {h g : Heap} {n : Nat}
    (hn : (h[n]?).isSome = true) (hne : ∀ x : Nat, x ≠ n → g[x]? = h[x]?) :
    ∀ (fuel x : Nat), n ∉ chain h fuel x → timeout D g fuel x = timeout D h fuel x := by
  intro fuel
  induction fuel with
  | zero => intro x _; rfl
  | succ fuel ih =>
    intro x hx
    have hxn : x ≠ n := by
      intro he
      subst he
      exact hx (self_mem_chain hn fuel)
    simp only [timeout, hne x hxn]
    cases hl : h[x]? with
    | none => rfl
    | some nx =>
      cases hp : nx.parent with
      | none => simp only [hp]
      | some p =>
        simp only [chain, hl, hp, List.mem_cons, not_or] at hx
        simp only [hp, ih p hx.2]

theorem setDefaultTimeout_lookup_ne (h : Heap) (n : Nat) (v : Int) (x : Nat) (hx : x ≠ n) :
    (setDefaultTimeout h n v)[x]? = h[x]? := by
  unfold setDefaultTimeout
  cases hn : h[n]? with
  | none => rfl
  | some nn => exact List.getElem?_set_ne (Ne.symm hx)

theorem setDefaultNavigationTimeout_lookup_ne (h : Heap) (n : Nat) (v : time.Duration) (x : Nat)
    (hx : x ≠ n) : (setDefaultNavigationTimeout h n v)[x]? = h[x]? := by
  unfold setDefaultNavigationTimeout
  cases hn : h[n]? with
  | none => rfl
  | some nn => exact List.getElem?_set_ne (Ne.symm hx)

theorem setDefaultTimeout_lookup_self (h : Heap) (n : Nat) (v : Int) (nn : TimeoutSettings)
    (hn : h[n]? = some nn) :
    (setDefaultTimeout h n v)[n]? = some { nn with defaultTimeout := some v } := by
  unfold setDefaultTimeout
  simp only [hn]
  rw [List.getElem?_set_self (lookup_lt hn)]

theorem setDefaultNavigationTimeout_lookup_self (h : Heap) (n : Nat) (v : time.Duration)
    (nn : TimeoutSettings) (hn : h[n]? = some nn) :
    (setDefaultNavigationTimeout h n v)[n]? =
      some { nn with defaultNavigationTimeout := some v } := by
  unfold setDefaultNavigationTimeout
  simp only [hn]
  rw [List.getElem?_set_self (lookup_lt hn)]

theorem setDefaultTimeout_length (h : Heap) (n : Nat) (v : Int) :
    (setDefaultTimeout h n v).length = h.length := by
  unfold setDefaultTimeout
  cases h[n]? <;> simp

theorem setDefaultNavigationTimeout_length (h : Heap) (n : Nat) (v : time.Duration) :
    (setDefaultNavigationTimeout h n v).length = h.length := by
  unfold setDefaultNavigationTimeout
  cases h[n]? <;> simp

/-- Two heaps with the same look-ups agree as lists after any projection. -/
theorem map_eq_of_lookup {β : Type} (f : TimeoutSettings → β) {h g : Heap}
    (hl : ∀ x : Nat, (g[x]?).map f = (h[x]?).map f) : g.map f = h.map f := by
  apply List.ext_getElem?
  intro x
  rw [List.getElem?_map, List.getElem?_map]
  exact hl x

theorem setDefaultTimeout_parents (h : Heap) (n : Nat) (v : Int) :
    (setDefaultTimeout h n v).map (fun x => x.parent) = h.map (fun x => x.parent) := by
  apply map_eq_of_lookup
  intro x
  by_cases hx : x = n
  · subst hx
    cases hn : h[x]? with
    | none => simp [setDefaultTimeout, hn]
    | some nn => simp [setDefaultTimeout_lookup_self h x v nn hn]
  · rw [setDefaultTimeout_lookup_ne h n v x hx]

theorem setDefaultNavigationTimeout_view (h : Heap) (n : Nat) (v : time.Duration) :
    (setDefaultNavigationTimeout h n v).map timeoutView = h.map timeoutView := by
  apply map_eq_of_lookup
  intro x
  by_cases hx : x = n
  · subst hx
    cases hn : h[x]? with
    | none => simp [setDefaultNavigationTimeout, hn]
    | some nn => simp [setDefaultNavigationTimeout_lookup_self h x v nn hn, timeoutView]
  · rw [setDefaultNavigationTimeout_lookup_ne h n v x hx]

theorem setDefaultNavigationTimeout_parents (h : Heap) (n : Nat) (v : time.Duration) :
    (setDefaultNavigationTimeout h n v).map (fun x => x.parent) =
      h.map (fun x => x.parent) := by
  have := congrArg (List.map Prod.fst) (setDefaultNavigationTimeout_view h n v)
  simpa [List.map_map, Function.comp, timeoutView] using this


theorem wrapInt64_spec (x : Int) :
    isInt64 (wrapInt64 x) ∧ (2 ^ 64 : Int) ∣ (wrapInt64 x - x) := by
  unfold isInt64 wrapInt64
  refine ⟨⟨by omega, by omega⟩, ?_⟩
  have h := Int.emod_add_ediv (x + 2 ^ 63) (2 ^ 64)
  refine ⟨-((x + 2 ^ 63) / 2 ^ 64), ?_⟩
  linarith

theorem wrapInt64_of_isInt64 (x : Int) (hx : isInt64 x) : wrapInt64 x = x := by
  unfold isInt64 at hx
  unfold wrapInt64
  omega

/-- C1: in a heap built by the constructor, `navigationTimeout()` returns, and
its result is the node's own `defaultNavigationTimeout` when that is set, else
the node's own `defaultTimeout` multiplied by `time.Hour.Milliseconds()`
(3,600,000) in wrapping `int64` arithmetic, else the parent's
`navigationTimeout()`, else `DefaultTimeout`.  The second case does not look at
the ancestors, whatever navigation timeout they hold. -/
theorem navigationTimeout_resolution_order (DefaultTimeout : time.Duration) (h : Heap)
    (hwf : h.wellFormed = true) (t : Nat) (n : TimeoutSettings) (ht : h[t]? = some n) :
    (∃ v, navigationTimeout DefaultTimeout h h.length t = some v) ∧
    navigationTimeout DefaultTimeout h h.length t =
      (match n.defaultNavigationTimeout, n.defaultTimeout, n.parent with
       | some d, _, _ => some d
       | none, some m, _ => some (wrapInt64 (m * 3600000))
       | none, none, some p => navigationTimeout DefaultTimeout h h.length p
       | none, none, none => some DefaultTimeout) ∧
    (∀ m, n.defaultNavigationTimeout = none → n.defaultTimeout = some m →
      navigationTimeout DefaultTimeout h h.length t = some (wrapInt64 (m * 3600000)) ∧
      isInt64 (wrapInt64 (m * 3600000)) ∧
      (2 ^ 64 : Int) ∣ (wrapInt64 (m * 3600000) - m * 3600000)) := by
  have hlt : t < h.length := lookup_lt ht
  obtain ⟨L, hL⟩ : ∃ k, h.length = k + 1 := ⟨h.length - 1, by omega⟩
  have heq : navigationTimeout DefaultTimeout h h.length t =
      (match n.defaultNavigationTimeout, n.defaultTimeout, n.parent with
       | some d, _, _ => some d
       | none, some m, _ => some (wrapInt64 (m * 3600000))
       | none, none, some p => navigationTimeout DefaultTimeout h h.length p
       | none, none, none => some DefaultTimeout) := by
    rw [hL]
    simp only [navigationTimeout, ht, time_Hour_Milliseconds]
    cases hd : n.defaultNavigationTimeout with
    | some d => rfl
    | none =>
      cases hm : n.defaultTimeout with
      | some m => rfl
      | none =>
        cases hp : n.parent with
        | none => rfl
        | some p =>
          have hpt : p < t := wellFormed_parent_lt hwf ht hp
          simp only
          exact navigationTimeout_fuel DefaultTimeout hwf p L (L + 1) (by omega) (by omega)
  refine ⟨?_, heq, ?_⟩
  · obtain ⟨v, hv⟩ := navigationTimeout_returns DefaultTimeout hwf t hlt
    refine ⟨v, ?_⟩
    rw [navigationTimeout_fuel DefaultTimeout hwf t h.length (t + 1) hlt (by omega)]
    exact hv
  · intro m hd hm
    refine ⟨?_, wrapInt64_spec _⟩
    rw [heq, hd, hm]

/-- C1, at node 3 of `exampleHeap`: it sets nothing itself, so its navigation
timeout is that of its parent, node 2, which is 7 * 3,600,000 although the
root holds a navigation timeout. -/
theorem navigationTimeout_resolution_order_witness :
    exampleHeap.wellFormed = true ∧
    navigationTimeout 30000000000 exampleHeap exampleHeap.length 3 =
      navigationTimeout 30000000000 exampleHeap exampleHeap.length 2 ∧
    navigationTimeout 30000000000 exampleHeap exampleHeap.length 2 =
      some (wrapInt64 (7 * 3600000)) ∧
    wrapInt64 (7 * 3600000) = 25200000 ∧
    navigationTimeout 30000000000 exampleHeap exampleHeap.length 0 = some 5000000000 :=
  ⟨by decide,
    (navigationTimeout_resolution_order 30000000000 exampleHeap (by decide) 3
      { parent := some 2, defaultTimeout := none, defaultNavigationTimeout := none }
      (by decide)).2.1,
    ((navigationTimeout_resolution_order 30000000000 exampleHeap (by decide) 2
      { parent := some 1, defaultTimeout := some 7, defaultNavigationTimeout := none }
      (by decide)).2.2 7 rfl rfl).1,
    by decide,
    (navigationTimeout_resolution_order 30000000000 exampleHeap (by decide) 0
      { parent := none, defaultTimeout := none, defaultNavigationTimeout := some 5000000000 }
      (by decide)).2.1⟩


theorem NewTimeoutSettings_lookup_old (h : Heap) (parent : Option Nat) (x : Nat)
    (hx : x < h.length) : (NewTimeoutSettings h parent).1[x]? = h[x]? := by
  simp only [NewTimeoutSettings]
  exact List.getElem?_append_left hx

theorem NewTimeoutSettings_lookup_new (h : Heap) (parent : Option Nat) :
    (NewTimeoutSettings h parent).1[(NewTimeoutSettings h parent).2]? =
      some { parent := parent, defaultTimeout := none, defaultNavigationTimeout := none } := by
  simp [NewTimeoutSettings]

/-- C2: a child without a local override resolves its navigation timeout to
the `defaultNavigationTimeout` `D` of its parent, both directly after
`NewTimeoutSettings(p)` and in any later heap in which the child still has no
override and the parent still holds `D`; after
`c.setDefaultNavigationTimeout(E)` the child resolves to `E` in every heap,
whatever its ancestors and its own `defaultTimeout` hold. -/
theorem child_navigationTimeout (DefaultTimeout : time.Duration) (h : Heap) (p : Nat)
    (np : TimeoutSettings) (D : time.Duration)
    (hp : h[p]? = some np) (hD : np.defaultNavigationTimeout = some D) :
    navigationTimeout DefaultTimeout (NewTimeoutSettings h (some p)).1
        (NewTimeoutSettings h (some p)).1.length (NewTimeoutSettings h (some p)).2 = some D ∧
    (∀ (c : Nat) (nc : TimeoutSettings), h[c]? = some nc → nc.parent = some p →
      nc.defaultTimeout = none → nc.defaultNavigationTimeout = none →
      navigationTimeout DefaultTimeout h h.length c = some D) ∧
    (∀ E : time.Duration,
      navigationTimeout DefaultTimeout
        (setDefaultNavigationTimeout (NewTimeoutSettings h (some p)).1
          (NewTimeoutSettings h (some p)).2 E)
        (setDefaultNavigationTimeout (NewTimeoutSettings h (some p)).1
          (NewTimeoutSettings h (some p)).2 E).length
        (NewTimeoutSettings h (some p)).2 = some E) ∧
    (∀ (g : Heap) (c : Nat) (E : time.Duration), c < g.length →
      navigationTimeout DefaultTimeout (setDefaultNavigationTimeout g c E)
        (setDefaultNavigationTimeout g c E).length c = some E) := by
  have hpl : p < h.length := lookup_lt hp
  have hset : ∀ (g : Heap) (c : Nat) (E : time.Duration), c < g.length →
      navigationTimeout DefaultTimeout (setDefaultNavigationTimeout g c E)
        (setDefaultNavigationTimeout g c E).length c = some E := by
    intro g c E hc
    rw [setDefaultNavigationTimeout_length]
    obtain ⟨L, hL⟩ : ∃ k, g.length = k + 1 := ⟨g.length - 1, by omega⟩
    rw [hL]
    simp only [navigationTimeout]
    rw [setDefaultNavigationTimeout_lookup_self g c E g[c] (List.getElem?_eq_getElem hc)]
  refine ⟨?_, ?_, ?_, hset⟩
  · obtain ⟨L, hL⟩ : ∃ k, h.length = k + 1 := ⟨h.length - 1, by omega⟩
    have hlen : (NewTimeoutSettings h (some p)).1.length = L + 1 + 1 := by
      simp [NewTimeoutSettings, hL]
    rw [hlen]
    simp only [navigationTimeout]
    rw [NewTimeoutSettings_lookup_new]
    simp only
    rw [NewTimeoutSettings_lookup_old h (some p) p hpl, hp]
    simp only [hD]
  · intro c nc hc hpar hm hd
    have hcl : c < h.length := lookup_lt hc
    have hcp : c ≠ p := by
      intro he
      subst he
      rw [hp] at hc
      cases hc
      rw [hD] at hd
      cases hd
    obtain ⟨L, hL⟩ : ∃ k, h.length = k + 1 + 1 := ⟨h.length - 2, by omega⟩
    rw [hL]
    simp only [navigationTimeout, hc, hd, hm, hpar, hp, hD]
  · intro E
    apply hset
    simp [NewTimeoutSettings]

/-- C2, with the root of `exampleHeap` (navigation timeout 5 s) as the parent. -/
theorem child_navigationTimeout_witness :
    navigationTimeout 30000000000 (NewTimeoutSettings exampleHeap (some 0)).1 5 4
      = some 5000000000 ∧
    navigationTimeout 30000000000 exampleHeap 4 1 = some 5000000000 ∧
    navigationTimeout 30000000000
      (setDefaultNavigationTimeout (NewTimeoutSettings exampleHeap (some 0)).1 4 9) 5 4
      = some 9 ∧
    navigationTimeout 30000000000 (setDefaultNavigationTimeout exampleHeap 3 9) 4 3 = some 9 :=
  ⟨(child_navigationTimeout 30000000000 exampleHeap 0
      { parent := none, defaultTimeout := none, defaultNavigationTimeout := some 5000000000 }
      5000000000 (by decide) (by decide)).1,
   (child_navigationTimeout 30000000000 exampleHeap 0
      { parent := none, defaultTimeout := none, defaultNavigationTimeout := some 5000000000 }
      5000000000 (by decide) (by decide)).2.1 1
      { parent := some 0, defaultTimeout := none, defaultNavigationTimeout := none }
      (by decide) rfl rfl rfl,
   (child_navigationTimeout 30000000000 exampleHeap 0
      { parent := none, defaultTimeout := none, defaultNavigationTimeout := some 5000000000 }
      5000000000 (by decide) (by decide)).2.2.1 9,
   (child_navigationTimeout 30000000000 exampleHeap 0
      { parent := none, defaultTimeout := none, defaultNavigationTimeout := some 5000000000 }
      5000000000 (by decide) (by decide)).2.2.2 exampleHeap 3 9 (by decide)⟩

/-- In a heap built by the constructor the chain from `t` is the parent path
of `t`: it starts at `t`, each address on it is followed by the parent of its
node, and it ends at a node without a parent. -/
theorem chain_parent_path {h : Heap} (hwf : h.wellFormed = true) :
    ∀ (t : Nat), t < h.length →
      (chain h (t + 1) t).head? = some t ∧
      List.Chain' (fun a b => ∃ n, h[a]? = some n ∧ n.parent = some b) (chain h (t + 1) t) ∧
      ∀ a, (chain h (t + 1) t).getLast? = some a → ∃ n, h[a]? = some n ∧ n.parent = none := by
  intro t
  induction t using Nat.strong_induction_on with
  | _ t ih =>
    intro ht
    have hn : h[t]? = some h[t] := List.getElem?_eq_getElem ht
    simp only [chain, hn]
    cases hp : (h[t]).parent with
    | none =>
      refine ⟨rfl, List.chain'_singleton t, ?_⟩
      intro a ha
      simp only [List.getLast?_singleton, Option.some.injEq] at ha
      subst ha
      exact ⟨h[t], hn, hp⟩
    | some p =>
      have hpt : p < t := wellFormed_parent_lt hwf hn hp
      obtain ⟨h1, h2, h3⟩ := ih p hpt (by omega)
      rw [chain_fuel hwf p (p + 1) t (by omega) hpt] at h1 h2 h3
      simp only
      refine ⟨rfl, ?_, ?_⟩
      · rw [List.chain'_cons']
        refine ⟨?_, h2⟩
        intro y hy
        rw [h1] at hy
        cases hy
        exact ⟨h[t], hn, hp⟩
      · intro a ha
        apply h3 a
        cases hc : chain h t p with
        | nil => rw [hc] at h1; simp at h1
        | cons b l =>
          rw [hc] at ha
          simpa [List.getLast?_cons_cons] using ha

/-- C3: in a heap built by the constructor, `timeout()` returns the
`defaultTimeout` of the nearest node on the path from `t` to the root that sets
one, and `DefaultTimeout.Milliseconds()` when none does; the path starts at
`t`, goes from each node to its parent and ends at the node without a parent;
the result is the same in every heap that has the same parent links and
`defaultTimeout` values, so no `defaultNavigationTimeout` influences it. -/
theorem timeout_nearest_on_path (DefaultTimeout : time.Duration) (h : Heap)
    (hwf : h.wellFormed = true) (t : Nat) (ht : t < h.length) :
    timeout DefaultTimeout h h.length t =
      some (nearestDefaultTimeout DefaultTimeout (path h h.length t)) ∧
    ((chain h h.length t).head? = some t ∧
      List.Chain' (fun a b => ∃ n, h[a]? = some n ∧ n.parent = some b) (chain h h.length t) ∧
      ∀ a, (chain h h.length t).getLast? = some a → ∃ n, h[a]? = some n ∧ n.parent = none) ∧
    (∀ g : Heap, g.map timeoutView = h.map timeoutView →
      timeout DefaultTimeout g g.length t = timeout DefaultTimeout h h.length t) := by
  refine ⟨?_, ?_, ?_⟩
  · rw [timeout_fuel DefaultTimeout hwf t h.length (t + 1) ht (by omega), path,
      chain_fuel hwf t h.length (t + 1) ht (by omega)]
    exact timeout_returns DefaultTimeout hwf t ht
  · rw [chain_fuel hwf t h.length (t + 1) ht (by omega)]
    exact chain_parent_path hwf t ht
  · intro g hg
    have hlen : g.length = h.length := by
      have := congrArg List.length hg
      simpa using this
    rw [hlen]
    exact timeout_congr DefaultTimeout hg h.length t

/-- C3, at node 3 of `exampleHeap`, whose nearest `defaultTimeout` is the 7 of
node 2, and at node 1, above which nothing is set. -/
theorem timeout_nearest_on_path_witness :
    timeout 30000000000 exampleHeap exampleHeap.length 3 = some 7 ∧
    timeout 30000000000 exampleHeap exampleHeap.length 1 = some 30000 ∧
    timeout 30000000000 (setDefaultNavigationTimeout exampleHeap 2 77) 4 3 =
      timeout 30000000000 exampleHeap exampleHeap.length 3 :=
  ⟨(timeout_nearest_on_path 30000000000 exampleHeap (by decide) 3 (by decide)).1,
   (timeout_nearest_on_path 30000000000 exampleHeap (by decide) 1 (by decide)).1,
   (timeout_nearest_on_path 30000000000 exampleHeap (by decide) 3 (by decide)).2.2
     (setDefaultNavigationTimeout exampleHeap 2 77) (by decide)⟩


theorem own_defaultTimeout_local (D : time.Duration) {h g : Heap} {x : Nat}
    {nx : TimeoutSettings} (hx : h[x]? = some nx) (hg : g[x]? = h[x]?)
    (hm : nx.defaultTimeout ≠ none) (fuel : Nat) :
    timeout D g fuel x = timeout D h fuel x ∧
    navigationTimeout D g fuel x = navigationTimeout D h fuel x := by
  cases fuel with
  | zero => exact ⟨rfl, rfl⟩
  | succ fuel =>
    obtain ⟨m, hm⟩ := Option.ne_none_iff_exists'.1 hm
    simp only [timeout, navigationTimeout, hg, hx, hm, and_self]

theorem own_defaultNavigationTimeout_local (D : time.Duration) {h g : Heap} {x : Nat}
    {nx : TimeoutSettings} (hx : h[x]? = some nx) (hg : g[x]? = h[x]?)
    (hd : nx.defaultNavigationTimeout ≠ none) (fuel : Nat) :
    navigationTimeout D g fuel x = navigationTimeout D h fuel x := by
  cases fuel with
  | zero => rfl
  | succ fuel =>
    obtain ⟨d, hd⟩ := Option.ne_none_iff_exists'.1 hd
    simp only [navigationTimeout, hg, hx, hd]

/-- C4: `setDefaultTimeout` and `setDefaultNavigationTimeout` on the node at
address `n` write one field of that node and nothing else: every other node,
the number of nodes and all parent links are as before.  For every node `x`
whose path to the root does not pass through `n` (`x` is neither `n` nor a
descendant of `n`; in a heap built by the constructor every proper ancestor of
`n` is such a node), and for every node other than `n` that sets the same
setting itself, `timeout()` and `navigationTimeout()` give the same result
before and after the call. -/
theorem setters_frame (DefaultTimeout : time.Duration) (h : Heap) (n : Nat) (v : Int)
    (fuel : Nat) :
    ((setDefaultTimeout h n v).map (fun x => x.parent) = h.map (fun x => x.parent) ∧
      (setDefaultNavigationTimeout h n v).map (fun x => x.parent) =
        h.map (fun x => x.parent)) ∧
    ((setDefaultTimeout h n v).length = h.length ∧
      (setDefaultNavigationTimeout h n v).length = h.length) ∧
    (∀ x : Nat, x ≠ n →
      (setDefaultTimeout h n v)[x]? = h[x]? ∧
      (setDefaultNavigationTimeout h n v)[x]? = h[x]?) ∧
    (∀ nn : TimeoutSettings, h[n]? = some nn →
      (setDefaultTimeout h n v)[n]? = some { nn with defaultTimeout := some v } ∧
      (setDefaultNavigationTimeout h n v)[n]? =
        some { nn with defaultNavigationTimeout := some v }) ∧
    (∀ x : Nat, n ∉ chain h fuel x →
      timeout DefaultTimeout (setDefaultTimeout h n v) fuel x =
        timeout DefaultTimeout h fuel x ∧
      navigationTimeout DefaultTimeout (setDefaultTimeout h n v) fuel x =
        navigationTimeout DefaultTimeout h fuel x ∧
      timeout DefaultTimeout (setDefaultNavigationTimeout h n v) fuel x =
        timeout DefaultTimeout h fuel x ∧
      navigationTimeout DefaultTimeout (setDefaultNavigationTimeout h n v) fuel x =
        navigationTimeout DefaultTimeout h fuel x) ∧
    (h.wellFormed = true → ∀ x : Nat, x ∈ chain h fuel n → x ≠ n →
      ∀ k : Nat, n ∉ chain h k x) ∧
    (∀ (x : Nat) (nx : TimeoutSettings), x ≠ n → h[x]? = some nx →
      nx.defaultTimeout ≠ none →
      timeout DefaultTimeout (setDefaultTimeout h n v) fuel x =
        timeout DefaultTimeout h fuel x ∧
      navigationTimeout DefaultTimeout (setDefaultTimeout h n v) fuel x =
        navigationTimeout DefaultTimeout h fuel x) ∧
    (∀ (x : Nat) (nx : TimeoutSettings), x ≠ n → h[x]? = some nx →
      nx.defaultNavigationTimeout ≠ none →
      timeout DefaultTimeout (setDefaultNavigationTimeout h n v) fuel x =
        timeout DefaultTimeout h fuel x ∧
      navigationTimeout DefaultTimeout (setDefaultNavigationTimeout h n v) fuel x =
        navigationTimeout DefaultTimeout h fuel x) := by
  have hview : ∀ x : Nat,
      timeout DefaultTimeout (setDefaultNavigationTimeout h n v) fuel x =
        timeout DefaultTimeout h fuel x :=
    fun x => timeout_congr DefaultTimeout (setDefaultNavigationTimeout_view h n v) fuel x
  refine ⟨⟨setDefaultTimeout_parents h n v, setDefaultNavigationTimeout_parents h n v⟩,
    ⟨setDefaultTimeout_length h n v, setDefaultNavigationTimeout_length h n v⟩,
    fun x hx => ⟨setDefaultTimeout_lookup_ne h n v x hx,
      setDefaultNavigationTimeout_lookup_ne h n v x hx⟩,
    fun nn hn => ⟨setDefaultTimeout_lookup_self h n v nn hn,
      setDefaultNavigationTimeout_lookup_self h n v nn hn⟩, ?_, ?_, ?_, ?_⟩
  · intro x hx
    cases hn : h[n]? with
    | none =>
      have h1 : setDefaultTimeout h n v = h := by simp [setDefaultTimeout, hn]
      have h2 : setDefaultNavigationTimeout h n v = h := by
        simp [setDefaultNavigationTimeout, hn]
      rw [h1, h2]
      exact ⟨rfl, rfl, rfl, rfl⟩
    | some nn =>
      have hs : (h[n]?).isSome = true := by simp [hn]
      exact ⟨timeout_frame DefaultTimeout hs (setDefaultTimeout_lookup_ne h n v) fuel x hx,
        navigationTimeout_frame DefaultTimeout hs (setDefaultTimeout_lookup_ne h n v) fuel x hx,
        hview x,
        navigationTimeout_frame DefaultTimeout hs
          (setDefaultNavigationTimeout_lookup_ne h n v) fuel x hx⟩
  · intro hwf x hx hxn k hk
    have h1 := chain_le hwf fuel n x hx
    have h2 := chain_le hwf k x n hk
    omega
  · intro x nx hxn hx hm
    exact own_defaultTimeout_local DefaultTimeout hx (setDefaultTimeout_lookup_ne h n v x hxn)
      hm fuel
  · intro x nx hxn hx hd
    exact ⟨hview x, own_defaultNavigationTimeout_local DefaultTimeout hx
      (setDefaultNavigationTimeout_lookup_ne h n v x hxn) hd fuel⟩

/-- C4, with `setDefaultTimeout(1000)` on node 1 of `exampleTree`: the sibling
node 2 is outside the subtree of node 1, the child node 3 has a default
timeout of its own, and node 1 itself does change; the root is an ancestor of
node 1; and in `exampleHeap`, whose root has a navigation timeout of its own,
with `setDefaultNavigationTimeout(1000)` on node 1. -/
theorem setters_frame_witness :
    (timeout 30000000000 (setDefaultTimeout exampleTree 1 1000) 4 2 =
        timeout 30000000000 exampleTree 4 2 ∧
      navigationTimeout 30000000000 (setDefaultTimeout exampleTree 1 1000) 4 2 =
        navigationTimeout 30000000000 exampleTree 4 2 ∧
      timeout 30000000000 (setDefaultNavigationTimeout exampleTree 1 1000) 4 2 =
        timeout 30000000000 exampleTree 4 2 ∧
      navigationTimeout 30000000000 (setDefaultNavigationTimeout exampleTree 1 1000) 4 2 =
        navigationTimeout 30000000000 exampleTree 4 2) ∧
    (timeout 30000000000 (setDefaultTimeout exampleTree 1 1000) 4 3 =
        timeout 30000000000 exampleTree 4 3 ∧
      navigationTimeout 30000000000 (setDefaultTimeout exampleTree 1 1000) 4 3 =
        navigationTimeout 30000000000 exampleTree 4 3) ∧
    timeout 30000000000 (setDefaultTimeout exampleTree 1 1000) 4 1 = some 1000 ∧
    timeout 30000000000 exampleTree 4 1 = some 30000 ∧
    (1 ∉ chain exampleTree 4 0) ∧
    ((setDefaultTimeout exampleTree 1 1000)[1]? =
        some { parent := some 0, defaultTimeout := some 1000, defaultNavigationTimeout := none } ∧
      (setDefaultNavigationTimeout exampleTree 1 1000)[1]? =
        some { parent := some 0, defaultTimeout := none,
               defaultNavigationTimeout := some 1000 }) ∧
    ((setDefaultTimeout exampleTree 1 1000)[3]? = exampleTree[3]? ∧
      (setDefaultNavigationTimeout exampleTree 1 1000)[3]? = exampleTree[3]?) ∧
    (timeout 30000000000 (setDefaultNavigationTimeout exampleHeap 1 1000) 4 0 =
        timeout 30000000000 exampleHeap 4 0 ∧
      navigationTimeout 30000000000 (setDefaultNavigationTimeout exampleHeap 1 1000) 4 0 =
        navigationTimeout 30000000000 exampleHeap 4 0) :=
  ⟨(setters_frame 30000000000 exampleTree 1 1000 4).2.2.2.2.1 2 (by decide),
   (setters_frame 30000000000 exampleTree 1 1000 4).2.2.2.2.2.2.1 3
      { parent := some 1, defaultTimeout := some 250, defaultNavigationTimeout := none }
      (by decide) (by decide) (by decide),
   by decide, by decide,
   (setters_frame 30000000000 exampleTree 1 1000 4).2.2.2.2.2.1 (by decide) 0 (by decide)
      (by decide) 4,
   (setters_frame 30000000000 exampleTree 1 1000 4).2.2.2.1
      { parent := some 0, defaultTimeout := none, defaultNavigationTimeout := none }
      (by decide),
   (setters_frame 30000000000 exampleTree 1 1000 4).2.2.1 3 (by decide),
   (setters_frame 30000000000 exampleHeap 1 1000 4).2.2.2.2.2.2.2 0
      { parent := none, defaultTimeout := none, defaultNavigationTimeout := some 5000000000 }
      (by decide) (by decide) (by decide)⟩

/-- C10: at a root node whose `defaultTimeout` is 1 (millisecond) and whose
`defaultNavigationTimeout` is unset, `timeout()` returns 1 while
`navigationTimeout()` returns 3,600,000 ns, which is not the
1 * `time.Millisecond` = 1,000,000 ns that denotes the same length of time. -/
theorem navigationTimeout_unit_mismatch :
    timeout 30000000000
      [{ parent := none, defaultTimeout := some 1, defaultNavigationTimeout := none }] 1 0
      = some 1 ∧
    navigationTimeout 30000000000
      [{ parent := none, defaultTimeout := some 1, defaultNavigationTimeout := none }] 1 0
      = some 3600000 ∧
    navigationTimeout 30000000000
      [{ parent := none, defaultTimeout := some 1, defaultNavigationTimeout := none }] 1 0
      ≠ some (1 * time.Millisecond) := by
  decide


theorem wellFormed_iff (h : Heap) :
    h.wellFormed = true ↔
      ∀ (i : Nat) (n : TimeoutSettings), h[i]? = some n → ∀ p, n.parent = some p → p < i := by
  constructor
  · intro hwf i n hi p hp
    exact wellFormed_parent_lt hwf hi hp
  · intro hall
    unfold Heap.wellFormed
    rw [List.all_eq_true]
    intro i hi
    have hlt : i < h.length := List.mem_range.1 hi
    rw [List.getElem?_eq_getElem hlt]
    simp only [parentBefore]
    cases hp : (h[i]).parent with
    | none => rfl
    | some p =>
      simp only [decide_eq_true_eq]
      exact hall i h[i] (List.getElem?_eq_getElem hlt) p hp

/-- The heaps that a program builds are well formed: the empty heap is, and
the constructor and both setters keep a heap so. -/
theorem wellFormed_preserved (h : Heap) (hwf : h.wellFormed = true) :
    Heap.wellFormed [] = true ∧
    (NewTimeoutSettings h none).1.wellFormed = true ∧
    (∀ p : Nat, p < h.length → (NewTimeoutSettings h (some p)).1.wellFormed = true) ∧
    (∀ (t : Nat) (v : Int), (setDefaultTimeout h t v).wellFormed = true) ∧
    (∀ (t : Nat) (v : time.Duration), (setDefaultNavigationTimeout h t v).wellFormed = true) := by
  have hnew : ∀ parent : Option Nat, (∀ p, parent = some p → p < h.length) →
      (NewTimeoutSettings h parent).1.wellFormed = true := by
    intro parent hpar
    rw [wellFormed_iff]
    intro i n hi p hp
    by_cases hlt : i < h.length
    · rw [NewTimeoutSettings_lookup_old h parent i hlt] at hi
      exact wellFormed_parent_lt hwf hi hp
    · have hil := lookup_lt hi
      simp only [NewTimeoutSettings, List.length_append, List.length_singleton] at hil
      have hie : i = h.length := by omega
      subst hie
      have := NewTimeoutSettings_lookup_new h parent
      simp only [NewTimeoutSettings] at this hi
      rw [this] at hi
      cases hi
      exact hpar p hp
  have hset : ∀ g : Heap, g.map (fun x => x.parent) = h.map (fun x => x.parent) →
      g.wellFormed = true := by
    intro g hg
    rw [wellFormed_iff]
    intro i n hi p hp
    have h1 : (g.map fun x => x.parent)[i]? = some (some p) := by
      rw [List.getElem?_map, hi]
      simp [hp]
    rw [hg, List.getElem?_map] at h1
    cases hh : h[i]? with
    | none => simp [hh] at h1
    | some m =>
      simp only [hh, Option.map_some', Option.some.injEq] at h1
      exact wellFormed_parent_lt hwf hh h1
  refine ⟨rfl, hnew none (by simp), fun p hp => hnew (some p) (by simpa using hp),
    fun t v => hset _ (setDefaultTimeout_parents h t v),
    fun t v => hset _ (setDefaultNavigationTimeout_parents h t v)⟩

/-! ### Option parsing -/

theorem GoError.Is_self (e : GoError) : e.Is e = true := by
  cases e <;> simp [GoError.Is]

theorem parseDurationLoop_30s (quote : String → String) (frac : Nat → Nat → Nat → Nat) :
    time.parseDurationLoop quote frac "30s" 4 ['3', '0', 's'] 0 = .ok 30000000000 := by
  simp [time.parseDurationLoop, time.leadingInt, time.isDigit, time.unitMap]

theorem ParseDuration_30s (quote : String → String) (frac : Nat → Nat → Nat → Nat) :
    time.ParseDuration quote frac "30s" = (30000000000, none) := by
  unfold time.ParseDuration
  have h : "30s".data = ['3', '0', 's'] := rfl
  simp only [h]
  simp [parseDurationLoop_30s]

theorem ParseDuration_0s (quote : String → String) (frac : Nat → Nat → Nat → Nat) :
    time.ParseDuration quote frac "0s" = (0, none) := by
  simp [time.ParseDuration, time.parseDurationLoop, time.leadingInt, time.isDigit,
    time.unitMap]

/-- The option parsers on a value whose exported type is not nil, and
`parseBoolOpt` and `parseTimeOpt` on every value: each returns either its
parsed value with a nil error or the zero value with an error whose message is
the key followed by the expected type.  `parseBoolOpt` returns `(b, nil)` when
`strconv.ParseBool` accepts the string form of the value as `b`, and `(false,
"<key> should be a boolean: <cause>")` wrapping the cause when it rejects it;
`parseStrOpt` returns the string form and nil when the exported kind is
string, and `("", "<key> should be a string")` when it is another kind;
`parseTimeOpt` returns `(t, nil)` when `time.ParseDuration` accepts the string
form as `t`, and `(0, "<key> should be a time duration value: <cause>")`
wrapping the cause when it rejects it.  With Go's `time.ParseDuration`, "30s"
parses to 30 s and "0s" to 0. -/
theorem option_parsers_result (ParseBool : String → Bool × Option GoError)
    (ParseDuration : String → time.Duration × Option GoError) (key : String)
    (val : goja.Value) :
    ((ParseBool val.String).2 = none →
      parseBoolOpt ParseBool key val = ((ParseBool val.String).1, none)) ∧
    (∀ err, (ParseBool val.String).2 = some err →
      parseBoolOpt ParseBool key val =
        (false, some (.wrap (key ++ " should be a boolean: " ++ err.Error) err))) ∧
    (val.ExportType = some reflect.Kind.String →
      parseStrOpt key val = .ok (val.String, none)) ∧
    (∀ kind, val.ExportType = some kind → kind ≠ reflect.Kind.String →
      parseStrOpt key val = .ok ("", some (.leaf (key ++ " should be a string")))) ∧
    ((ParseDuration val.String).2 = none →
      parseTimeOpt ParseDuration key val = ((ParseDuration val.String).1, none)) ∧
    (∀ err, (ParseDuration val.String).2 = some err →
      parseTimeOpt ParseDuration key val =
        (0, some (.wrap (key ++ " should be a time duration value: " ++ err.Error) err))) ∧
    (∀ (quote : String → String) (frac : Nat → Nat → Nat → Nat),
      (val.String = "30s" →
        parseTimeOpt (time.ParseDuration quote frac) key val = (30000000000, none)) ∧
      (val.String = "0s" →
        parseTimeOpt (time.ParseDuration quote frac) key val = (0, none))) := by
  refine ⟨?_, ?_, ?_, ?_, ?_, ?_, ?_⟩
  · intro h
    unfold parseBoolOpt
    rcases hp : ParseBool val.String with ⟨b, e⟩
    rw [hp] at h
    simp only at h
    subst h
    rfl
  · intro err h
    unfold parseBoolOpt
    rcases hp : ParseBool val.String with ⟨b, e⟩
    rw [hp] at h
    simp only at h
    subst h
    rfl
  · intro h
    simp [parseStrOpt, h]
  · intro kind h hk
    simp [parseStrOpt, h, hk]
  · intro h
    unfold parseTimeOpt
    rcases hp : ParseDuration val.String with ⟨b, e⟩
    rw [hp] at h
    simp only at h
    subst h
    rfl
  · intro err h
    unfold parseTimeOpt
    rcases hp : ParseDuration val.String with ⟨b, e⟩
    rw [hp] at h
    simp only at h
    subst h
    rfl
  · intro quote frac
    constructor
    · intro hv
      unfold parseTimeOpt
      rw [hv, ParseDuration_30s]
    · intro hv
      unfold parseTimeOpt
      rw [hv, ParseDuration_0s]

/-- The option parsers at launch options like those of the tests: `headless:
true`, a `headless` that is the number 2, an `executablePath` that is a number
and one that is a string, the timeouts "30s" and "0s", and a timeout "soon". -/
theorem option_parsers_result_examples :
    parseBoolOpt (strconv.ParseBool plainQuote) "headless"
        { ExportType := some reflect.Kind.Bool, String := "true" } = (true, none) ∧
    parseBoolOpt (strconv.ParseBool plainQuote) "headless"
        { ExportType := some reflect.Kind.Int64, String := "2" } =
      (false, some (.wrap "headless should be a boolean: strconv.ParseBool: parsing \"2\": invalid syntax"
        (.wrap "strconv.ParseBool: parsing \"2\": invalid syntax" (.leaf "invalid syntax")))) ∧
    parseStrOpt "executablePath" { ExportType := some reflect.Kind.Int64, String := "2" } =
      .ok ("", some (.leaf "executablePath should be a string")) ∧
    parseTimeOpt (time.ParseDuration plainQuote fun _ _ _ => 0) "timeout"
        { ExportType := some reflect.Kind.String, String := "30s" } = (30000000000, none) ∧
    parseStrOpt "executablePath"
        { ExportType := some reflect.Kind.String, String := "/bin/chrome" } =
      .ok ("/bin/chrome", none) ∧
    parseTimeOpt (time.ParseDuration plainQuote fun _ _ _ => 0) "slowMo"
        { ExportType := some reflect.Kind.String, String := "0s" } = (0, none) ∧
    parseTimeOpt (time.ParseDuration plainQuote fun _ _ _ => 0) "timeout"
        { ExportType := some reflect.Kind.String, String := "soon" } =
      (0, some (.wrap "timeout should be a time duration value: time: invalid duration \"soon\""
        (.leaf "time: invalid duration \"soon\""))) :=
  ⟨(option_parsers_result (strconv.ParseBool plainQuote) (time.ParseDuration plainQuote fun _ _ _ => 0)
      "headless" { ExportType := some reflect.Kind.Bool, String := "true" }).1 (by decide),
   (option_parsers_result (strconv.ParseBool plainQuote) (time.ParseDuration plainQuote fun _ _ _ => 0)
      "headless" { ExportType := some reflect.Kind.Int64, String := "2" }).2.1
      (.wrap "strconv.ParseBool: parsing \"2\": invalid syntax" (.leaf "invalid syntax"))
      (by decide),
   (option_parsers_result (strconv.ParseBool plainQuote) (time.ParseDuration plainQuote fun _ _ _ => 0)
      "executablePath" { ExportType := some reflect.Kind.Int64, String := "2" }).2.2.2.1
      reflect.Kind.Int64 rfl (by decide),
   ((option_parsers_result (strconv.ParseBool plainQuote) (time.ParseDuration plainQuote fun _ _ _ => 0)
      "timeout" { ExportType := some reflect.Kind.String, String := "30s" }).2.2.2.2.2.2
      plainQuote (fun _ _ _ => 0)).1 rfl,
   (option_parsers_result (strconv.ParseBool plainQuote) (time.ParseDuration plainQuote fun _ _ _ => 0)
      "executablePath" { ExportType := some reflect.Kind.String, String := "/bin/chrome" }).2.2.1
      rfl,
   (option_parsers_result (strconv.ParseBool plainQuote) (time.ParseDuration plainQuote fun _ _ _ => 0)
      "slowMo" { ExportType := some reflect.Kind.String, String := "0s" }).2.2.2.2.1 (by decide),
   (option_parsers_result (strconv.ParseBool plainQuote) (time.ParseDuration plainQuote fun _ _ _ => 0)
      "timeout" { ExportType := some reflect.Kind.String, String := "soon" }).2.2.2.2.2.1
      (.leaf "time: invalid duration \"soon\"") (by decide)⟩

/-- C5: on `undefined` and `null`, and on every value whose exported type is
nil, `parseStrOpt` panics with a nil dereference: it returns neither the
string form nor the error "<key> should be a string".  On the same values
`parseBoolOpt` and `parseTimeOpt` return their zero value and the error that
names the key and the expected type. -/
theorem parseStrOpt_panics_on_nil_type :
    (∀ (key s : String),
      parseStrOpt key { ExportType := none, String := s } = .error nilDereference) ∧
    parseStrOpt "executablePath" goja.Undefined = .error nilDereference ∧
    parseStrOpt "executablePath" goja.Null = .error nilDereference ∧
    (∀ r : String × Option GoError, parseStrOpt "executablePath" goja.Undefined ≠ .ok r) ∧
    parseStrOpt "executablePath" goja.Undefined ≠
      .ok ("", some (.leaf "executablePath should be a string")) ∧
    parseBoolOpt (strconv.ParseBool plainQuote) "headless" goja.Undefined =
      (false, some (.wrap
        "headless should be a boolean: strconv.ParseBool: parsing \"undefined\": invalid syntax"
        (.wrap "strconv.ParseBool: parsing \"undefined\": invalid syntax"
          (.leaf "invalid syntax")))) ∧
    parseTimeOpt (time.ParseDuration plainQuote fun _ _ _ => 0) "timeout" goja.Undefined =
      (0, some (.wrap
        "timeout should be a time duration value: time: invalid duration \"undefined\""
        (.leaf "time: invalid duration \"undefined\""))) := by
  have h : ∀ (key s : String),
      parseStrOpt key { ExportType := none, String := s } = .error nilDereference :=
    fun _ _ => rfl
  refine ⟨h, h _ _, h _ _, ?_, ?_, by decide, by decide⟩
  · intro r hr
    rw [show parseStrOpt "executablePath" goja.Undefined = .error nilDereference from h _ _] at hr
    cases hr
  · intro hr
    rw [show parseStrOpt "executablePath" goja.Undefined = .error nilDereference from h _ _] at hr
    cases hr

/-! ### Video capture -/

/-- C7: `handleFrame` returns nil exactly when `Persist` returns nil; when
`Persist` returns an error `e`, it returns an error whose `Unwrap` is `e` (so
that `errors.Is` finds `e`) and whose message is "creating frame file: "
followed by the message of `e`; in both cases `Persist` has been called once
and the persister is left in the state in which that one call left it. -/
theorem handleFrame_propagates_error {Ctx Rd σ : Type} (Join : List String → String)
    (v : videocapture Ctx Rd σ) (ctx : Ctx) (frame : VideoFrame Rd) (w : World Ctx Rd σ) :
    ((v.handleFrame Join ctx frame w).1 = none ↔
      (v.persister.Persist ctx (Join [v.path, fmt.Sprintf_frame frame.Timestamp.UnixMilli])
        frame.Content w.state).1 = none) ∧
    (∀ e : GoError,
      (v.persister.Persist ctx (Join [v.path, fmt.Sprintf_frame frame.Timestamp.UnixMilli])
        frame.Content w.state).1 = some e →
      ∃ res : GoError, (v.handleFrame Join ctx frame w).1 = some res ∧
        res.Unwrap = some e ∧ res.Is e = true ∧
        res.Error = "creating frame file: " ++ e.Error) ∧
    (v.handleFrame Join ctx frame w).2.calls.length = w.calls.length + 1 ∧
    (v.handleFrame Join ctx frame w).2.state =
      (v.persister.Persist ctx (Join [v.path, fmt.Sprintf_frame frame.Timestamp.UnixMilli])
        frame.Content w.state).2 := by
  unfold videocapture.handleFrame VideoCapturePersister.call
  cases hr : (v.persister.Persist ctx
      (Join [v.path, fmt.Sprintf_frame frame.Timestamp.UnixMilli]) frame.Content w.state).1 with
  | none => simp [hr]
  | some e => simp [hr, GoError.Unwrap, GoError.Is, GoError.Is_self, GoError.Error]

/-- C7, with `boundedPersister` already holding two frames: it refuses the
third with "disk full". -/
theorem handleFrame_propagates_error_witness :
    ∃ res : GoError,
      (exampleCapture.handleFrame filepath.Join 7 exampleFrame
        { state := 2, calls := [] }).1 = some res ∧
      res.Unwrap = some (.leaf "disk full") ∧ res.Is (.leaf "disk full") = true ∧
      res.Error = "creating frame file: " ++ (GoError.leaf "disk full").Error :=
  (handleFrame_propagates_error filepath.Join exampleCapture 7 exampleFrame
    { state := 2, calls := [] }).2.1 (.leaf "disk full") (by rfl)

/-- C8: a call of `VideoFormat.String` does not return: whatever the format
and however many nested calls are allowed, no result is produced; so
`VideoFormatJPEG.String()` does not return "jpeg". -/
theorem VideoFormat_String_never_returns (f : VideoFormat) (fuel : Nat) :
    VideoFormat.String f fuel = none ∧ VideoFormat.String VideoFormatJPEG fuel ≠ some "jpeg" := by
  have h : ∀ g : VideoFormat, VideoFormat.String g fuel = none := by
    intro g
    induction fuel with
    | zero => rfl
    | succ k ih => simpa [VideoFormat.String] using ih
  refine ⟨h f, ?_⟩
  rw [h]
  simp

/-! ### Decimal formatting is injective -/

theorem digit_facts : ∀ d : Fin 10,
    ((fmt.digit d.val).toNat - '0'.toNat = d.val) ∧ fmt.digit d.val ≠ '/' ∧
      fmt.digit d.val ≠ '-' ∧ fmt.digit d.val ≠ '.' := by
  decide

theorem digit_value {d : Nat} (hd : d < 10) : (fmt.digit d).toNat - '0'.toNat = d :=
  (digit_facts ⟨d, hd⟩).1

theorem digit_plain {d : Nat} (hd : d < 10) :
    fmt.digit d ≠ '/' ∧ fmt.digit d ≠ '-' ∧ fmt.digit d ≠ '.' :=
  (digit_facts ⟨d, hd⟩).2

theorem fmtDigits_append : ∀ (fuel u : Nat) (buf : List Char), u ≤ fuel →
    fmt.fmtDigits fuel u buf = fmt.fmtDigits fuel u [] ++ buf := by
  intro fuel
  induction fuel with
  | zero => intro u buf _; simp [fmt.fmtDigits]
  | succ fuel ih =>
    intro u buf hu
    simp only [fmt.fmtDigits]
    split
    · have hle : u / 10 ≤ fuel := by omega
      rw [ih (u / 10) (fmt.digit (u - u / 10 * 10) :: buf) hle,
        ih (u / 10) [fmt.digit (u - u / 10 * 10)] hle]
      simp
    · simp

theorem fmtDigits_succ (fuel u : Nat) (hu : u ≤ fuel + 1) (h10 : 10 ≤ u) :
    fmt.fmtDigits (fuel + 1) u [] = fmt.fmtDigits fuel (u / 10) [] ++ [fmt.digit (u % 10)] := by
  have hmod : u - u / 10 * 10 = u % 10 := by omega
  simp only [fmt.fmtDigits, ge_iff_le, h10, if_true, hmod]
  exact fmtDigits_append fuel (u / 10) _ (by omega)

theorem fmtDigits_small (fuel u : Nat) (h10 : u < 10) :
    fmt.fmtDigits fuel u [] = [fmt.digit u] := by
  cases fuel with
  | zero => rfl
  | succ fuel => simp [fmt.fmtDigits, Nat.not_le.2 h10]

theorem digitsValue_fmtDigits : ∀ (fuel u : Nat), u ≤ fuel →
    digitsValue (fmt.fmtDigits fuel u []) = u := by
  intro fuel
  induction fuel with
  | zero =>
    intro u hu
    have : u = 0 := by omega
    subst this
    decide
  | succ fuel ih =>
    intro u hu
    by_cases h10 : 10 ≤ u
    · rw [fmtDigits_succ fuel u hu h10]
      have hrec := ih (u / 10) (by omega)
      unfold digitsValue at hrec ⊢
      rw [List.foldl_append, hrec]
      simp only [List.foldl_cons, List.foldl_nil]
      rw [digit_value (Nat.mod_lt u (by decide))]
      omega
    · have hlt : u < 10 := by omega
      rw [fmtDigits_small _ u hlt]
      unfold digitsValue
      simp only [List.foldl_cons, List.foldl_nil]
      rw [digit_value hlt]
      omega

theorem fmtDigits_plain : ∀ (fuel u : Nat), u ≤ fuel →
    ∀ c ∈ fmt.fmtDigits fuel u [], c ≠ '/' ∧ c ≠ '-' ∧ c ≠ '.' := by
  intro fuel
  induction fuel with
  | zero =>
    intro u hu c hc
    have : u = 0 := by omega
    subst this
    simp only [fmt.fmtDigits, List.mem_singleton] at hc
    subst hc
    exact digit_plain (by decide)
  | succ fuel ih =>
    intro u hu c hc
    by_cases h10 : 10 ≤ u
    · rw [fmtDigits_succ fuel u hu h10, List.mem_append, List.mem_singleton] at hc
      rcases hc with hc | hc
      · exact ih (u / 10) (by omega) c hc
      · subst hc
        exact digit_plain (Nat.mod_lt u (by decide))
    · have hlt : u < 10 := by omega
      rw [fmtDigits_small _ u hlt, List.mem_singleton] at hc
      subst hc
      exact digit_plain hlt

theorem fmtDigits_ne_nil (fuel u : Nat) (buf : List Char) : fmt.fmtDigits fuel u buf ≠ [] := by
  induction fuel generalizing u buf with
  | zero => simp [fmt.fmtDigits]
  | succ fuel ih =>
    simp only [fmt.fmtDigits]
    split
    · exact ih _ _
    · simp

theorem fmtInteger_injective (x y : Int) (h : fmt.fmtInteger x = fmt.fmtInteger y) : x = y := by
  have hhead : ∀ n : Nat, ∀ l, fmt.fmtDigits n n [] ≠ '-' :: l := by
    intro n l he
    have hmem : '-' ∈ fmt.fmtDigits n n [] := by rw [he]; simp
    exact (fmtDigits_plain n n (le_refl _) _ hmem).2.1 rfl
  have hval : ∀ a b : Nat, fmt.fmtDigits a a [] = fmt.fmtDigits b b [] → a = b := by
    intro a b he
    have := congrArg digitsValue he
    rwa [digitsValue_fmtDigits a a (le_refl _), digitsValue_fmtDigits b b (le_refl _)] at this
  unfold fmt.fmtInteger at h
  by_cases hx : x < 0 <;> by_cases hy : y < 0
  · simp only [hx, hy, if_true, List.cons.injEq, true_and] at h
    have := hval _ _ h
    omega
  · simp only [hx, hy, if_true, if_false] at h
    exact absurd h.symm (hhead _ _)
  · simp only [hx, hy, if_true, if_false] at h
    exact absurd h (hhead _ _)
  · simp only [hx, hy, if_false] at h
    have := hval _ _ h
    omega


/-! ### `filepath.Join` keeps a plain last element -/

theorem takeWhile_append_stop {α : Type} (p : α → Bool) (l : List α) (a : α) (m : List α)
    (ha : p a = false) : (l ++ a :: m).takeWhile p = l.takeWhile p := by
  induction l with
  | nil => simp [List.takeWhile, ha]
  | cons b l ih =>
    simp only [List.cons_append, List.takeWhile]
    cases p b <;> simp [ih]

theorem dropWhile_append_stop {α : Type} (p : α → Bool) (l : List α) (a : α) (m : List α)
    (ha : p a = false) : (l ++ a :: m).dropWhile p = l.dropWhile p ++ a :: m := by
  induction l with
  | nil => simp [List.dropWhile, ha]
  | cons b l ih =>
    simp only [List.cons_append, List.dropWhile]
    cases p b <;> simp [ih]

theorem takeWhile_all {α : Type} (p : α → Bool) (l : List α) (h : ∀ a ∈ l, p a = true) :
    l.takeWhile p = l ∧ l.dropWhile p = [] := by
  induction l with
  | nil => simp
  | cons b l ih =>
    have hb : p b = true := h b (by simp)
    have := ih (fun a ha => h a (by simp [ha]))
    simp [List.takeWhile, List.dropWhile, hb, this.1, this.2]

theorem dropWhile_length_le {α : Type} (p : α → Bool) (l : List α) :
    (l.dropWhile p).length ≤ l.length := by
  induction l with
  | nil => simp
  | cons b l ih =>
    simp only [List.dropWhile]
    cases p b
    · simp only [List.length_cons]; omega
    · simp only [List.length_cons]; omega

theorem cleanLoop_nil (rooted : Bool) (fuel : Nat) (out : List Char) (dd : Nat) :
    filepath.cleanLoop rooted fuel [] out dd = out := by
  cases fuel <;> rfl

/-- The last step: a plain element at the end of the path is appended to the
buffer, after a separator if the buffer needs one. -/
theorem cleanLoop_plain (rooted : Bool) (fuel : Nat) (name out : List Char) (dd : Nat)
    (hn : plainElement name) :
    filepath.cleanLoop rooted (fuel + 1) name out dd =
      name.reverse ++
        (if rooted && out.length ≠ 1 || !rooted && out.length ≠ 0 then '/' :: out else out) := by
  obtain ⟨hall, c, r, rfl, hc⟩ := hn
  have hsep : filepath.IsPathSeparator c = false := hall c (by simp)
  have htw := takeWhile_all (fun b => !filepath.IsPathSeparator b) (c :: r)
    (fun a ha => by simp [hall a ha])
  simp only [filepath.cleanLoop, hsep, hc, htw.1, htw.2, cleanLoop_nil]
  simp

theorem cleanLoop_sep (rooted : Bool) (fuel : Nat) (c : Char) (rest out : List Char) (dd : Nat)
    (h1 : filepath.IsPathSeparator c = true) :
    filepath.cleanLoop rooted (fuel + 1) (c :: rest) out dd =
      filepath.cleanLoop rooted fuel rest out dd := by
  rw [filepath.cleanLoop]
  simp only [h1, if_true]

theorem cleanLoop_dot (rooted : Bool) (fuel : Nat) (c : Char) (rest out : List Char) (dd : Nat)
    (h1 : filepath.IsPathSeparator c = false)
    (h2 : (decide (c = '.') && (rest.isEmpty || rest.head?.any filepath.IsPathSeparator)) = true) :
    filepath.cleanLoop rooted (fuel + 1) (c :: rest) out dd =
      filepath.cleanLoop rooted fuel rest out dd := by
  rw [filepath.cleanLoop]
  simp only [h1, h2, if_true, Bool.false_eq_true, if_false]

theorem cleanLoop_dotdot (rooted : Bool) (fuel : Nat) (c : Char) (rest out : List Char)
    (dd : Nat) (h1 : filepath.IsPathSeparator c = false)
    (h2 : (decide (c = '.') && (rest.isEmpty || rest.head?.any filepath.IsPathSeparator)) = false)
    (h3 : (decide (c = '.') && decide (rest.head? = some '.') &&
      (rest.tail.isEmpty || rest.tail.head?.any filepath.IsPathSeparator)) = true) :
    filepath.cleanLoop rooted (fuel + 1) (c :: rest) out dd =
      if out.length > dd then
        filepath.cleanLoop rooted fuel rest.tail (filepath.backtrack dd out) dd
      else if (!rooted) = true then
        filepath.cleanLoop rooted fuel rest.tail
          ('.' :: '.' :: (if out.length > 0 then '/' :: out else out))
          (if out.length > 0 then out.length + 3 else out.length + 2)
      else
        filepath.cleanLoop rooted fuel rest.tail out dd := by
  rw [filepath.cleanLoop]
  simp only [h1, h2, h3, if_true, Bool.false_eq_true, if_false]

theorem cleanLoop_elem (rooted : Bool) (fuel : Nat) (c : Char) (rest out : List Char)
    (dd : Nat) (h1 : filepath.IsPathSeparator c = false)
    (h2 : (decide (c = '.') && (rest.isEmpty || rest.head?.any filepath.IsPathSeparator)) = false)
    (h3 : (decide (c = '.') && decide (rest.head? = some '.') &&
      (rest.tail.isEmpty || rest.tail.head?.any filepath.IsPathSeparator)) = false) :
    filepath.cleanLoop rooted (fuel + 1) (c :: rest) out dd =
      filepath.cleanLoop rooted fuel ((c :: rest).dropWhile fun b => !filepath.IsPathSeparator b)
        (((c :: rest).takeWhile fun b => !filepath.IsPathSeparator b).reverse ++
          (if rooted && out.length ≠ 1 || !rooted && out.length ≠ 0 then '/' :: out else out))
        dd := by
  rw [filepath.cleanLoop]
  simp only [h1, h2, h3, Bool.false_eq_true, if_false]

theorem cleanLoop_before_plain (rooted : Bool) : ∀ (n : Nat) (xs : List Char), xs.length ≤ n →
    ∀ (out : List Char) (dd : Nat), ∃ o : List Char, ∀ (name : List Char) (fuel : Nat),
      plainElement name → (xs ++ '/' :: name).length < fuel →
      filepath.cleanLoop rooted fuel (xs ++ '/' :: name) out dd = name.reverse ++ o := by
  intro n
  induction n with
  | zero =>
    intro xs hxs out dd
    have : xs = [] := List.length_eq_zero.1 (by omega)
    subst this
    refine ⟨if rooted && out.length ≠ 1 || !rooted && out.length ≠ 0 then '/' :: out else out,
      fun name fuel hn hf => ?_⟩
    simp only [List.nil_append, List.length_cons] at hf
    obtain ⟨f, rfl⟩ : ∃ k, fuel = k + 1 + 1 := ⟨fuel - 2, by omega⟩
    simp only [List.nil_append]
    rw [cleanLoop_sep rooted (f + 1) '/' name out dd (by decide)]
    exact cleanLoop_plain rooted f name out dd hn
  | succ n ih =>
    intro xs hxs out dd
    rcases xs with _ | ⟨c, xs⟩
    · exact ih [] (by simp) out dd
    · simp only [List.length_cons] at hxs
      have hlen : xs.length ≤ n := by omega
      have hsl : filepath.IsPathSeparator '/' = true := by decide
      -- the step that copies a real path element
      have helem : filepath.IsPathSeparator c = false →
          (∀ name : List Char,
            (decide (c = '.') && ((xs ++ '/' :: name).isEmpty ||
              (xs ++ '/' :: name).head?.any filepath.IsPathSeparator)) = false ∧
            (decide (c = '.') && decide ((xs ++ '/' :: name).head? = some '.') &&
              ((xs ++ '/' :: name).tail.isEmpty ||
                (xs ++ '/' :: name).tail.head?.any filepath.IsPathSeparator)) = false) →
          ∃ o : List Char, ∀ (name : List Char) (fuel : Nat),
            plainElement name → (c :: xs ++ '/' :: name).length < fuel →
            filepath.cleanLoop rooted fuel (c :: xs ++ '/' :: name) out dd =
              name.reverse ++ o := by
        intro h1 hconds
        have hpc : (fun b => !filepath.IsPathSeparator b) c = true := by simp [h1]
        have hdl : (xs.dropWhile fun b => !filepath.IsPathSeparator b).length ≤ n :=
          le_trans (dropWhile_length_le _ xs) hlen
        obtain ⟨o, ho⟩ := ih (xs.dropWhile fun b => !filepath.IsPathSeparator b) hdl
          (((c :: xs).takeWhile fun b => !filepath.IsPathSeparator b).reverse ++
            (if rooted && out.length ≠ 1 || !rooted && out.length ≠ 0 then '/' :: out else out))
          dd
        refine ⟨o, fun name fuel hn hf => ?_⟩
        simp only [List.cons_append, List.length_cons, List.length_append] at hf
        obtain ⟨f, rfl⟩ : ∃ k, fuel = k + 1 := ⟨fuel - 1, by omega⟩
        rw [List.cons_append, cleanLoop_elem rooted f c (xs ++ '/' :: name) out dd h1
          (hconds name).1 (hconds name).2]
        have e1 : (c :: (xs ++ '/' :: name)) = (c :: xs) ++ '/' :: name := rfl
        rw [e1, takeWhile_append_stop _ (c :: xs) '/' name (by simp [hsl]),
          dropWhile_append_stop _ (c :: xs) '/' name (by simp [hsl])]
        have e2 : ((c :: xs).dropWhile fun b => !filepath.IsPathSeparator b) =
            xs.dropWhile fun b => !filepath.IsPathSeparator b := by
          simp [List.dropWhile, h1]
        rw [e2]
        apply ho name f hn
        have := dropWhile_length_le (fun b => !filepath.IsPathSeparator b) xs
        simp only [List.length_append, List.length_cons]
        omega
      by_cases h1 : filepath.IsPathSeparator c = true
      · obtain ⟨o, ho⟩ := ih xs hlen out dd
        refine ⟨o, fun name fuel hn hf => ?_⟩
        simp only [List.cons_append, List.length_cons] at hf
        obtain ⟨f, rfl⟩ : ∃ k, fuel = k + 1 := ⟨fuel - 1, by omega⟩
        simp only [List.cons_append]
        rw [cleanLoop_sep rooted f c _ out dd h1]
        exact ho name f hn (by omega)
      · simp only [Bool.not_eq_true] at h1
        by_cases hc : c = '.'
        · rcases xs with _ | ⟨c2, xs2⟩
          · -- a dot element at the end of the directory
            obtain ⟨o, ho⟩ := ih [] (by simp) out dd
            refine ⟨o, fun name fuel hn hf => ?_⟩
            simp only [List.cons_append, List.length_cons] at hf
            obtain ⟨f, rfl⟩ : ∃ k, fuel = k + 1 := ⟨fuel - 1, by omega⟩
            simp only [List.cons_append]
            rw [cleanLoop_dot rooted f c _ out dd h1 (by simp [hc, hsl])]
            exact ho name f hn (by simpa using hf)
          · by_cases h2 : filepath.IsPathSeparator c2 = true
            · -- a dot element followed by a separator
              obtain ⟨o, ho⟩ := ih (c2 :: xs2) hlen out dd
              refine ⟨o, fun name fuel hn hf => ?_⟩
              simp only [List.cons_append, List.length_cons] at hf
              obtain ⟨f, rfl⟩ : ∃ k, fuel = k + 1 := ⟨fuel - 1, by omega⟩
              simp only [List.cons_append]
              rw [cleanLoop_dot rooted f c _ out dd h1 (by simp [hc, h2])]
              exact ho name f hn (by simpa using hf)
            · simp only [Bool.not_eq_true] at h2
              by_cases h3 : c2 = '.' ∧ (xs2 = [] ∨ xs2.head?.any filepath.IsPathSeparator = true)
              · -- a dot-dot element
                simp only [List.length_cons] at hlen
                have hlen2 : xs2.length ≤ n := by omega
                obtain ⟨oa, hoa⟩ := ih xs2 hlen2 (filepath.backtrack dd out) dd
                obtain ⟨ob, hob⟩ := ih xs2 hlen2
                  ('.' :: '.' :: (if out.length > 0 then '/' :: out else out))
                  (if out.length > 0 then out.length + 3 else out.length + 2)
                obtain ⟨oc, hoc⟩ := ih xs2 hlen2 out dd
                refine ⟨if out.length > dd then oa else if (!rooted) = true then ob else oc,
                  fun name fuel hn hf => ?_⟩
                simp only [List.cons_append, List.length_cons] at hf
                obtain ⟨f, rfl⟩ : ∃ k, fuel = k + 1 := ⟨fuel - 1, by omega⟩
                simp only [List.cons_append]
                have hcond3 : (decide (c = '.') &&
                    decide ((c2 :: (xs2 ++ '/' :: name)).head? = some '.') &&
                    ((c2 :: (xs2 ++ '/' :: name)).tail.isEmpty ||
                      (c2 :: (xs2 ++ '/' :: name)).tail.head?.any filepath.IsPathSeparator))
                    = true := by
                  rcases h3 with ⟨h3a, h3b | h3b⟩
                  · simp [hc, h3a, h3b, hsl]
                  · rcases xs2 with _ | ⟨c3, xs3⟩
                    · simp [hc, h3a, hsl]
                    · simp only [List.head?_cons, Option.any_some] at h3b
                      simp [hc, h3a, h3b]
                rw [cleanLoop_dotdot rooted f c _ out dd h1 (by simp [hc, h2]) hcond3]
                simp only [List.tail_cons]
                split
                · exact hoa name f hn (by omega)
                · split
                  · exact hob name f hn (by omega)
                  · exact hoc name f hn (by omega)
              · -- an element that starts with a dot
                apply helem h1
                intro name
                constructor
                · simp [hc, h2]
                · rcases xs2 with _ | ⟨c3, xs3⟩
                  · simp only [not_and, not_or] at h3
                    by_cases h4 : c2 = '.'
                    · exact absurd trivial (h3 h4).1
                    · simp [hc, h4]
                  · by_cases h4 : c2 = '.'
                    · have h5 : filepath.IsPathSeparator c3 = false := by
                        cases h6 : filepath.IsPathSeparator c3 with
                        | false => rfl
                        | true => exact absurd ⟨h4, Or.inr (by simp [h6])⟩ h3
                      simp [hc, h4, h5]
                    · simp [hc, h4]
        · apply helem h1
          intro name
          simp [hc]


theorem String_eq_empty_iff (s : String) : s = "" ↔ s.data = [] := by
  constructor
  · intro h; subst h; rfl
  · intro h
    cases s
    simp only at h
    subst h
    rfl

theorem Clean_of_loop (path : String) (hne : path.data ≠ []) (res : List Char)
    (hres : (if path.data.head?.any filepath.IsPathSeparator = true then
        filepath.cleanLoop true (path.data.length + 1) path.data.tail ['/'] 1
      else filepath.cleanLoop false (path.data.length + 1) path.data [] 0) = res)
    (hnil : res ≠ []) : filepath.Clean path = String.mk res.reverse := by
  unfold filepath.Clean
  have h1 : path ≠ "" := fun h => hne ((String_eq_empty_iff path).1 h)
  simp only [h1, if_false]
  rw [hres]
  have h2 : res.length ≠ 0 := fun h => hnil (List.length_eq_zero.1 h)
  simp only [h2, if_false]

theorem Join_plain (p : String) : ∃ o : List Char, ∀ name : String,
    plainElement name.data → filepath.Join [p, name] = String.mk (o ++ name.data) := by
  by_cases hp : p = ""
  · subst hp
    refine ⟨[], fun name hn => ?_⟩
    obtain ⟨hall, c, r, hcr, hc⟩ := id hn
    have hne : name ≠ "" := by
      intro h
      rw [(String_eq_empty_iff name).1 h] at hcr
      cases hcr
    have hj : filepath.Join ["", name] = filepath.Clean name := by
      simp [filepath.Join, List.dropWhile, hne, String.intercalate, String.intercalate.go]
    rw [hj]
    have hhead : name.data.head?.any filepath.IsPathSeparator = false := by
      rw [hcr]
      simpa using hall c (by rw [hcr]; simp)
    have := Clean_of_loop name (by rw [hcr]; simp) (name.data.reverse ++ [])
      (by
        rw [hhead]
        simp only [Bool.false_eq_true, if_false]
        rw [cleanLoop_plain false _ name.data [] 0 hn]
        simp)
      (by rw [hcr]; simp)
    rw [this]
    simp
  · have hpd : p.data ≠ [] := fun h => hp ((String_eq_empty_iff p).2 h)
    obtain ⟨c, ps, hcp⟩ : ∃ c ps, p.data = c :: ps := by
      cases hd : p.data with
      | nil => exact absurd hd hpd
      | cons c ps => exact ⟨c, ps, rfl⟩
    obtain ⟨o1, ho1⟩ := cleanLoop_before_plain true ps.length ps (le_refl _) ['/'] 1
    obtain ⟨o2, ho2⟩ := cleanLoop_before_plain false (c :: ps).length (c :: ps) (le_refl _) [] 0
    refine ⟨(if filepath.IsPathSeparator c = true then o1 else o2).reverse, fun name hn => ?_⟩
    have hj : filepath.Join [p, name] = filepath.Clean (p ++ "/" ++ name) := by
      simp [filepath.Join, List.dropWhile, hp, String.intercalate, String.intercalate.go]
    have hdata : (p ++ "/" ++ name).data = (c :: ps) ++ '/' :: name.data := by
      simp [String.data_append, hcp]
    rw [hj]
    have := Clean_of_loop (p ++ "/" ++ name) (by rw [hdata]; simp)
      (name.data.reverse ++ (if filepath.IsPathSeparator c = true then o1 else o2))
      (by
        rw [hdata]
        simp only [List.cons_append, List.head?_cons, Option.any_some, List.tail_cons,
          List.length_cons]
        split
        · exact ho1 name.data _ hn (by simp only [List.length_append, List.length_cons]; omega)
        · exact ho2 name.data _ hn
            (by simp only [List.cons_append, List.length_append, List.length_cons]; omega))
      (by
        obtain ⟨_, c0, r0, hcr, _⟩ := hn
        rw [hcr]
        simp)
    rw [this]
    simp


theorem fmtInteger_no_separator (x : Int) :
    ∀ c ∈ fmt.fmtInteger x, filepath.IsPathSeparator c = false := by
  intro c hc
  have hd : ∀ c ∈ fmt.fmtDigits x.natAbs x.natAbs [], filepath.IsPathSeparator c = false := by
    intro c hc
    have := (fmtDigits_plain _ _ (le_refl _) c hc).1
    simp [filepath.IsPathSeparator, this]
  unfold fmt.fmtInteger at hc
  split at hc
  · rcases List.mem_cons.1 hc with h | h
    · subst h; decide
    · exact hd c h
  · exact hd c hc

theorem Sprintf_frame_plain (x : Int) : plainElement (fmt.Sprintf_frame x).data := by
  constructor
  · intro c hc
    simp only [fmt.Sprintf_frame, List.mem_append] at hc
    rcases hc with (hc | hc) | hc
    · have : ∀ c ∈ "frame".data, filepath.IsPathSeparator c = false := by decide
      exact this c hc
    · exact fmtInteger_no_separator x c hc
    · have : ∀ c ∈ ".jpeg".data, filepath.IsPathSeparator c = false := by decide
      exact this c hc
  · refine ⟨'f', "rame".data ++ fmt.fmtInteger x ++ ".jpeg".data, ?_, by decide⟩
    simp only [fmt.Sprintf_frame]
    rfl

theorem Sprintf_frame_injective (x y : Int) (h : fmt.Sprintf_frame x = fmt.Sprintf_frame y) :
    x = y := by
  have h0 := congrArg String.data h
  simp only [fmt.Sprintf_frame, List.append_assoc] at h0
  have h1 := List.append_cancel_left h0
  have hlen : (fmt.fmtInteger x).length = (fmt.fmtInteger y).length := by
    have := congrArg List.length h1
    simp only [List.length_append] at this
    omega
  exact fmtInteger_injective x y (List.append_inj_left h1 hlen)

theorem artifactName_injective (dir : String) (x y : Int)
    (h : artifactName filepath.Join dir x = artifactName filepath.Join dir y) : x = y := by
  obtain ⟨o, ho⟩ := Join_plain dir
  unfold artifactName at h
  rw [ho _ (Sprintf_frame_plain x), ho _ (Sprintf_frame_plain y)] at h
  have h0 := congrArg String.data h
  simp only at h0
  have h1 := List.append_cancel_left h0
  apply Sprintf_frame_injective
  exact String.ext h1

theorem UnixMilli_exact (t : time.Time)
    (h : isInt64 (t.unixSec * 1000 + (t.nsec : Int) / 1000000)) :
    t.UnixMilli = t.unixSec * 1000 + (t.nsec : Int) / 1000000 := by
  have hmod : ∀ a b : Int, wrapInt64 (wrapInt64 a + b) = wrapInt64 (a + b) := by
    intro a b
    unfold wrapInt64
    omega
  unfold time.Time.UnixMilli
  rw [hmod]
  exact wrapInt64_of_isInt64 _ h

/-- C6: `handleFrame` calls `Persist` once, with the `ctx` it was given, the
frame's `Content`, and the path `filepath.Join(v.path, "frame" + decimal +
".jpeg")` where `decimal` is `frame.Timestamp.UnixMilli()` in base ten.  The
path is therefore a function (`artifactName`) of `v.path` and that
millisecond count alone; with the Unix `filepath.Join`, two frames of one
capture get the same path if and only if their `UnixMilli()` is the same
(which, for timestamps whose millisecond count fits an `int64`, is the number
of whole milliseconds since the epoch). -/
theorem handleFrame_artifact_name {Ctx Rd σ : Type} (Join : List String → String)
    (v : videocapture Ctx Rd σ) (ctx : Ctx) (frame : VideoFrame Rd) (w : World Ctx Rd σ) :
    (v.handleFrame Join ctx frame w).2.calls =
      w.calls ++ [{ ctx := ctx, path := artifactName Join v.path frame.Timestamp.UnixMilli,
                    data := frame.Content }] ∧
    artifactName Join v.path frame.Timestamp.UnixMilli =
      Join [v.path, String.mk ("frame".data ++ fmt.fmtInteger frame.Timestamp.UnixMilli ++
        ".jpeg".data)] ∧
    (∀ frame2 : VideoFrame Rd,
      artifactName filepath.Join v.path frame2.Timestamp.UnixMilli =
        artifactName filepath.Join v.path frame.Timestamp.UnixMilli ↔
      frame2.Timestamp.UnixMilli = frame.Timestamp.UnixMilli) ∧
    (isInt64 (frame.Timestamp.unixSec * 1000 + (frame.Timestamp.nsec : Int) / 1000000) →
      frame.Timestamp.UnixMilli =
        frame.Timestamp.unixSec * 1000 + (frame.Timestamp.nsec : Int) / 1000000) := by
  refine ⟨?_, rfl, ?_, UnixMilli_exact frame.Timestamp⟩
  · unfold videocapture.handleFrame VideoCapturePersister.call artifactName
    cases hr : (v.persister.Persist ctx
        (Join [v.path, fmt.Sprintf_frame frame.Timestamp.UnixMilli]) frame.Content w.state).1 with
    | none => simp [hr]
    | some e => simp [hr]
  · intro frame2
    constructor
    · exact artifactName_injective v.path _ _
    · intro h
      rw [h]

/-- C6, with `exampleFrame`, captured 1,700,000,000,123 ms after the epoch: a
frame captured 543,210 ns later, in the same millisecond, gets the same name,
and a frame captured 543,211 ns later, in the next millisecond, another. -/
theorem handleFrame_artifact_name_witness :
    exampleFrame.Timestamp.UnixMilli = 1700000000123 ∧
    (exampleCapture.handleFrame filepath.Join 7 exampleFrame { state := 0, calls := [] }).2.calls =
      [{ ctx := 7, path := artifactName filepath.Join "/tmp/video" 1700000000123,
         data := "jpeg bytes" }] ∧
    artifactName filepath.Join "/tmp/video" 1700000000123 =
      "/tmp/video/frame1700000000123.jpeg" ∧
    artifactName filepath.Join exampleCapture.path
        (time.Time.UnixMilli { unixSec := 1700000000, nsec := 123999999 }) =
      artifactName filepath.Join exampleCapture.path exampleFrame.Timestamp.UnixMilli ∧
    artifactName filepath.Join exampleCapture.path
        (time.Time.UnixMilli { unixSec := 1700000000, nsec := 124000000 }) ≠
      artifactName filepath.Join exampleCapture.path exampleFrame.Timestamp.UnixMilli :=
  ⟨(handleFrame_artifact_name filepath.Join exampleCapture 7 exampleFrame
      { state := 0, calls := [] }).2.2.2 (by decide),
   (handleFrame_artifact_name filepath.Join exampleCapture 7 exampleFrame
      { state := 0, calls := [] }).1,
   by decide,
   ((handleFrame_artifact_name filepath.Join exampleCapture 7 exampleFrame
      { state := 0, calls := [] }).2.2.1
      { Content := "other bytes", Timestamp := { unixSec := 1700000000, nsec := 123999999 } }).2
      (by decide),
   fun h => absurd
    (((handleFrame_artifact_name filepath.Join exampleCapture 7 exampleFrame
      { state := 0, calls := [] }).2.2.1
      { Content := "other bytes", Timestamp := { unixSec := 1700000000, nsec := 124000000 } }).1
      h)
    (by decide)⟩

/-! ### The locator engine -/

end Xk6Browser
